import Mathlib

/-!
# The BOS storage driver (`registry/storage/driver/bos/bos.go`)

A shallow embedding of the driver and of the remote bucket it talks to.

* Go strings are byte sequences; a string is modelled as the list of its
  characters, so that `len`, slicing, `strings.HasPrefix` and
  `strings.Split` act position by position.
* The vendor SDK (`baidubce/service/bos`) is not part of the repository.  Its
  primitives are modelled on a bucket that maps keys to bytes; every primitive
  may additionally be answered with a transport error, as decided by the
  oracle `Remote.fault`.
* Every driver method threads the remote state explicitly and returns the
  state it leaves behind.
* `index` in `WriteStream` is a Go `int`: overflowing it needs `2^63` loop
  iterations, each one a remote call, so it is kept as a natural number.
  `totalRead` is an `int64` and wraps.
-/

namespace Bos

/-! ## Basic data -/

/-- A Go string, as the sequence of its characters. -/
abbrev Str := List Char

/-- A Go byte slice. -/
abbrev Bytes := List Nat

deriving instance DecidableEq for Except

/-- Errors the SDK hands back; the driver treats them as opaque. -/
inductive RemoteError where
  | transport
  | noSuchKey
  | noSuchUpload
  | invalidPart
  | invalidPartOrder
  deriving DecidableEq, Repr

/-- Errors a driver method returns.  `runtimePanic` stands for a Go run-time
panic (slice bounds or index out of range). -/
inductive Error where
  | PathNotFoundError (Path : Str)
  | ErrUnsupportedMethod
  | config (msg : Str)
  | remote (e : RemoteError)
  | runtimePanic
  deriving DecidableEq, Repr

/-- An entry of a list-objects response (`res.Contents[i]`). -/
structure ObjectSummary where
  ObjectName : Str
  Size : Int
  deriving DecidableEq, Repr

/-- The part descriptor `bos.PartInfo`. -/
structure PartInfo where
  PartNumber : Nat
  ETag : Str
  deriving DecidableEq, Repr

/-- The value `storagedriver.FileInfoFields` as far as `Stat` fills it;
unset fields hold the zero value. -/
structure FileInfoFields where
  Path : Str
  Size : Int
  IsDir : Bool
  deriving DecidableEq, Repr

/-! ## The remote bucket

The SDK is absent from the repository.  This section models its primitives from the
collaborator contract of the spec: a bucket is a flat map from key to bytes, get-object
fails on an absent key, list-objects returns the keys that start with the given string,
and a completed multi-part upload stores the concatenation of its parts in part order.
A real list-objects response is paginated; the model returns every matching key. -/

/-- A part held by the remote for an upload session. -/
structure StoredPart where
  partNumber : Nat
  eTag : Str
  body : Bytes
  deriving DecidableEq, Repr

/-- A server-side upload session. -/
structure Upload where
  UploadId : Nat
  Key : Str
  Parts : List StoredPart
  deriving DecidableEq, Repr

/-- A remote call, as the remote receives it.  An upload-part call is recorded together
with the checksum the remote computes for it, which is what the call returns when it
succeeds. -/
inductive Call where
  | GetObject (key : Str)
  | PutObject (key : Str) (body : Bytes)
  | ListObjects (pfx : Str)
  | CopyObject (src dst : Str)
  | DeleteObject (key : Str)
  | InitiateMultipartUpload (key : Str)
  | UploadPart (key : Str) (uploadId : Nat) (partNumber : Nat) (body : Bytes) (eTag : Str)
  | CompleteMultipartUpload (key : Str) (uploadId : Nat) (parts : List PartInfo)
  | AbortMultipartUpload (key : Str) (uploadId : Nat)
  deriving DecidableEq, Repr

/-- The behaviour of the remote that the driver does not control: which calls
are answered with a transport error and which checksum an uploaded part gets.
Both are indexed by the position of the call among all calls received. -/
structure Remote where
  fault : Nat → Bool
  etag : Nat → Bytes → Str

/-- Modelled from the spec: the bucket behind `d.Client` (the SDK is absent).
A flat map from key to bytes, the open upload sessions, and the calls
received so far. -/
structure Bucket where
  objects : List (Str × Bytes)
  uploads : List Upload
  nextUploadId : Nat
  calls : List Call
  deriving DecidableEq, Repr

/-- The empty bucket. -/
def Bucket.empty : Bucket := ⟨[], [], 0, []⟩

/-- A remote that never reports a transport error. -/
def Remote.reliable : Remote := ⟨fun _ => false, fun _ _ => []⟩

/-- Appends a call to the record of received calls. -/
def Bucket.record (b : Bucket) (c : Call) : Bucket :=
  { b with calls := b.calls ++ [c] }

/-- Whether the call about to be received is answered with a transport error. -/
def Bucket.faulty (R : Remote) (b : Bucket) : Bool := R.fault b.calls.length

/-- The bytes stored at a key, if any. -/
def lookupKey (key : Str) : List (Str × Bytes) → Option Bytes
  | [] => none
  | kv :: rest => if kv.1 = key then some kv.2 else lookupKey key rest

/-- Removes whatever is stored at a key. -/
def removeKey (key : Str) (objs : List (Str × Bytes)) : List (Str × Bytes) :=
  objs.filter (fun kv => decide (kv.1 ≠ key))

/-- Stores bytes at a key, replacing what was there. -/
def storeKey (key : Str) (data : Bytes) (objs : List (Str × Bytes)) : List (Str × Bytes) :=
  removeKey key objs ++ [(key, data)]

/-- The open session with the given identifier and key, if any. -/
def findUpload (key : Str) (uploadId : Nat) (us : List Upload) : Option Upload :=
  us.find? (fun u => decide (u.UploadId = uploadId ∧ u.Key = key))

/-- Drops the session with the given identifier. -/
def dropUpload (uploadId : Nat) (us : List Upload) : List Upload :=
  us.filter (fun u => decide (u.UploadId ≠ uploadId))

/-- Adds an uploaded part to the session with the given identifier and key. -/
def addPart (key : Str) (uploadId : Nat) (p : StoredPart) (us : List Upload) : List Upload :=
  us.map (fun u =>
    if u.UploadId = uploadId ∧ u.Key = key then { u with Parts := u.Parts ++ [p] } else u)

/-- The body the session holds for a part descriptor: the latest uploaded part
with that number, provided its checksum is the one in the descriptor. -/
def partBody (stored : List StoredPart) (p : PartInfo) : Option Bytes :=
  match stored.reverse.find? (fun s => decide (s.partNumber = p.PartNumber)) with
  | none => none
  | some s => if s.eTag = p.ETag then some s.body else none

/-- The concatenation, in the order of the descriptors, of the bodies held for them. -/
def assemble (stored : List StoredPart) : List PartInfo → Option Bytes
  | [] => some []
  | p :: ps =>
    match partBody stored p, assemble stored ps with
    | some d, some ds => some (d ++ ds)
    | _, _ => none

/-- Modelled from the spec: get-object(bucket, key, range) → byte stream.  Fails on an
absent key.  The driver always asks for the whole object. -/
def GetObject (R : Remote) (b : Bucket) (key : Str) : Except RemoteError Bytes × Bucket :=
  let b1 := b.record (.GetObject key)
  if b.faulty R then (.error .transport, b1)
  else
    match lookupKey key b.objects with
    | none => (.error .noSuchKey, b1)
    | some data => (.ok data, b1)

/-- Modelled from the spec: put-object(bucket, key, bytes) → ack. -/
def PutObject (R : Remote) (b : Bucket) (key : Str) (body : Bytes) :
    Except RemoteError Unit × Bucket :=
  let b1 := b.record (.PutObject key body)
  if b.faulty R then (.error .transport, b1)
  else (.ok (), { b1 with objects := storeKey key body b.objects })

/-- Modelled from the spec: list-objects(bucket, filters…, prefix) → ordered set of {key, size}:
the keys that start with the given string, with the length of what is stored there. -/
def ListObjects (R : Remote) (b : Bucket) (pfx : Str) :
    Except RemoteError (List ObjectSummary) × Bucket :=
  let b1 := b.record (.ListObjects pfx)
  if b.faulty R then (.error .transport, b1)
  else
    (.ok ((b.objects.filter (fun kv => pfx.isPrefixOf kv.1)).map
      (fun kv => ⟨kv.1, (kv.2.length : Int)⟩)), b1)

/-- Modelled from the spec: copy-object(bucket, srcKey, bucket, dstKey) → ack.  Fails on an
absent source. -/
def CopyObject (R : Remote) (b : Bucket) (src dst : Str) :
    Except RemoteError Unit × Bucket :=
  let b1 := b.record (.CopyObject src dst)
  if b.faulty R then (.error .transport, b1)
  else
    match lookupKey src b.objects with
    | none => (.error .noSuchKey, b1)
    | some data => (.ok (), { b1 with objects := storeKey dst data b.objects })

/-- Modelled from the spec: delete-object(bucket, key) → ack.  Fails on an absent key. -/
def DeleteObject (R : Remote) (b : Bucket) (key : Str) : Except RemoteError Unit × Bucket :=
  let b1 := b.record (.DeleteObject key)
  if b.faulty R then (.error .transport, b1)
  else
    match lookupKey key b.objects with
    | none => (.error .noSuchKey, b1)
    | some _ => (.ok (), { b1 with objects := removeKey key b.objects })

/-- Modelled from the spec: multipart-initiate opens an upload session and returns its
identifier. -/
def InitiateMultipartUpload (R : Remote) (b : Bucket) (key : Str) :
    Except RemoteError Nat × Bucket :=
  let b1 := b.record (.InitiateMultipartUpload key)
  if b.faulty R then (.error .transport, b1)
  else
    (.ok b.nextUploadId,
      { b1 with uploads := b.uploads ++ [⟨b.nextUploadId, key, []⟩],
                nextUploadId := b.nextUploadId + 1 })

/-- Modelled from the spec: upload-part stores a numbered part in an open session and returns
the part checksum. -/
def UploadPart (R : Remote) (b : Bucket) (key : Str) (uploadId : Nat) (partNumber : Nat)
    (body : Bytes) : Except RemoteError Str × Bucket :=
  let eTag := R.etag b.calls.length body
  let b1 := b.record (.UploadPart key uploadId partNumber body eTag)
  if b.faulty R then (.error .transport, b1)
  else
    match findUpload key uploadId b.uploads with
    | none => (.error .noSuchUpload, b1)
    | some _ =>
      (.ok eTag, { b1 with uploads := addPart key uploadId ⟨partNumber, eTag, body⟩ b.uploads })

/-- Modelled from the spec: completing a session stores the concatenation of its parts in
part order at the key; the part sequence must be contiguous and ordered by ascending part
number for completion to succeed. -/
def CompleteMultipartUpload (R : Remote) (b : Bucket) (key : Str) (uploadId : Nat)
    (parts : List PartInfo) : Except RemoteError Unit × Bucket :=
  let b1 := b.record (.CompleteMultipartUpload key uploadId parts)
  if b.faulty R then (.error .transport, b1)
  else
    match findUpload key uploadId b.uploads with
    | none => (.error .noSuchUpload, b1)
    | some u =>
      if parts.map (fun p => p.PartNumber) = List.range' 1 parts.length then
        match assemble u.Parts parts with
        | none => (.error .invalidPart, b1)
        | some data =>
          (.ok (), { b1 with objects := storeKey key data b.objects,
                             uploads := dropUpload uploadId b.uploads })
      else (.error .invalidPartOrder, b1)

/-- Modelled from the spec: abort-multipart discards an open session. -/
def AbortMultipartUpload (R : Remote) (b : Bucket) (key : Str) (uploadId : Nat) :
    Except RemoteError Unit × Bucket :=
  let b1 := b.record (.AbortMultipartUpload key uploadId)
  if b.faulty R then (.error .transport, b1)
  else
    match findUpload key uploadId b.uploads with
    | none => (.error .noSuchUpload, b1)
    | some _ => (.ok (), { b1 with uploads := dropUpload uploadId b.uploads })

/-! ## The driver -/

/-- The chunk size of `WriteStream`: `buffSize := 5 << 20`. -/
def buffSize : Nat := 5 <<< 20

/-- The wrap-around of a Go `int64`. -/
def int64 (x : Int) : Int := (x + 2 ^ 63) % 2 ^ 64 - 2 ^ 63

/-- The method `driver.GetContent`: any get-object error becomes a path-not-found error. -/
def driver.GetContent (R : Remote) (b : Bucket) (path : Str) : Except Error Bytes × Bucket :=
  match GetObject R b path with
  | (.error _, b1) => (.error (.PathNotFoundError path), b1)
  | (.ok data, b1) => (.ok data, b1)

/-- The method `driver.PutContent`: `none` is the nil error. -/
def driver.PutContent (R : Remote) (b : Bucket) (path : Str) (contents : Bytes) :
    Option Error × Bucket :=
  match PutObject R b path contents with
  | (.error e, b1) => (some (.remote e), b1)
  | (.ok _, b1) => (none, b1)

/-- The error half of the result of `reader.Read`. -/
inductive ReadError where
  | EOF
  | other (code : Nat)
  deriving DecidableEq, Repr

/-- The result of one `reader.Read(buf)`: the bytes `buf[:readed]` and the error. -/
structure ReadResult where
  data : Bytes
  err : Option ReadError
  deriving DecidableEq, Repr

/-- An `io.Reader`: what its successive calls to `Read` return, counted from zero,
when handed a buffer of `buffSize` bytes.  By the contract of `io.Reader` a read
delivers at most as many bytes as the buffer holds, possibly fewer, and may deliver
bytes together with an error. -/
abbrev Reader := Nat → ReadResult

/-- The variables of the chunk loop of `WriteStream`, together with the number of
reads performed so far (the position of the reader). -/
structure LoopState where
  totalRead : Int
  index : Nat
  parts : List PartInfo
  reads : Nat
  bucket : Bucket
  deriving DecidableEq, Repr

/-- What `WriteStream` returns (`err = none` is the nil error), together with the number
of reads performed and the state the remote is left in. -/
structure WriteResult where
  totalRead : Int
  err : Option Error
  reads : Nat
  bucket : Bucket
  deriving DecidableEq, Repr

/-- One pass through the body of the `for` loop of `WriteStream`: either the state at
the start of the next pass, or the values returned. -/
def WriteStream.body (R : Remote) (path : Str) (uploadId : Nat) (reader : Reader)
    (s : LoopState) : LoopState ⊕ WriteResult :=
  let buf := (reader s.reads).data
  let readed := buf.length
  let readErr := (reader s.reads).err
  let totalRead := int64 (s.totalRead + (readed : Int))
  if s.index = 1 ∧ readed < buffSize then
    let b1 := (AbortMultipartUpload R s.bucket path uploadId).2
    match PutObject R b1 path buf with
    | (.error e, b2) => .inr ⟨totalRead, some (.remote e), s.reads + 1, b2⟩
    | (.ok _, b2) => .inr ⟨totalRead, none, s.reads + 1, b2⟩
  else
    match UploadPart R s.bucket path uploadId s.index buf with
    | (.error e, b1) => .inr ⟨0, some (.remote e), s.reads + 1, b1⟩
    | (.ok eTag, b1) =>
      let parts := s.parts ++ [⟨s.index, eTag⟩]
      if readErr = some .EOF then
        match CompleteMultipartUpload R b1 path uploadId parts with
        | (.error e, b2) => .inr ⟨totalRead, some (.remote e), s.reads + 1, b2⟩
        | (.ok _, b2) => .inr ⟨totalRead, none, s.reads + 1, b2⟩
      else
        .inl ⟨totalRead, s.index + 1, parts, s.reads + 1, b1⟩

/-- The `for` loop of `WriteStream`, run for at most `fuel` passes; `none` when the loop
is still running after that many passes. -/
def WriteStream.loop (R : Remote) (path : Str) (uploadId : Nat) (reader : Reader) :
    Nat → LoopState → Option WriteResult
  | 0, _ => none
  | fuel + 1, s =>
    match WriteStream.body R path uploadId reader s with
    | .inl s1 => WriteStream.loop R path uploadId reader fuel s1
    | .inr out => some out

/-- The state at the start of pass `k + 1` of the loop started in `s`, when the loop
gets that far. -/
def WriteStream.stateAt (R : Remote) (path : Str) (uploadId : Nat) (reader : Reader)
    (s : LoopState) : Nat → Option LoopState
  | 0 => some s
  | k + 1 =>
    match WriteStream.stateAt R path uploadId reader s k with
    | none => none
    | some s1 =>
      match WriteStream.body R path uploadId reader s1 with
      | .inl s2 => some s2
      | .inr _ => none

/-- The state in which `WriteStream` enters its loop once the session is open. -/
def WriteStream.start (b : Bucket) : LoopState := ⟨0, 1, [], 0, b⟩

/-- The method `driver.WriteStream`, its loop bounded by `fuel` passes.  The offset is
not used by the code. -/
def driver.WriteStream (fuel : Nat) (R : Remote) (b : Bucket) (path : Str) (_offset : Int)
    (reader : Reader) : Option WriteResult :=
  match InitiateMultipartUpload R b path with
  | (.error e, b1) => some ⟨0, some (.remote e), 0, b1⟩
  | (.ok uploadId, b1) => WriteStream.loop R path uploadId reader fuel (WriteStream.start b1)

/-- The body of `driver.Stat` after the list-objects call has returned `res`. -/
def driver.StatOf (path : Str) (res : Except RemoteError (List ObjectSummary)) :
    Except Error FileInfoFields :=
  let fi : FileInfoFields := ⟨path, 0, false⟩
  match res with
  | .error _ => .error (.PathNotFoundError path)
  | .ok Contents =>
    if Contents.length < 1 then .error (.PathNotFoundError path)
    else if Contents.length > 1 then .ok { fi with IsDir := true }
    else
      match Contents with
      | [] => .error .runtimePanic
      | c :: _ => .ok { fi with IsDir := false, Size := c.Size }

/-- The method `driver.Stat`. -/
def driver.Stat (R : Remote) (b : Bucket) (path : Str) : Except Error FileInfoFields × Bucket :=
  let r := ListObjects R b path
  (driver.StatOf path r.1, r.2)

/-- The function `ItemInArray`. -/
def ItemInArray : List Str → Str → Bool
  | [], _ => false
  | f :: arr, item => if f = item then true else ItemInArray arr item

/-- The library function `strings.HasPrefix`. -/
def HasPrefix (s pfx : Str) : Bool := pfx.isPrefixOf s

/-- The library function `strings.Split(s, "/")`: the pieces of `s` between the
separators, one more than there are separators. -/
def Split : Str → List Str
  | [] => [[]]
  | c :: cs =>
    if c = '/' then [] :: Split cs
    else
      match Split cs with
      | [] => [[c]]
      | f :: fs => (c :: f) :: fs

/-- The loop of `driver.List` over `items[i:]`, with the accumulated `files` and
`directories`. -/
def List.loop (path : Str) : List ObjectSummary → List Str → List Str →
    Except Error (List Str × List Str)
  | [], files, directories => .ok (files, directories)
  | it :: items, files, directories =>
    if path.length > it.ObjectName.length then .error .runtimePanic
    else
      let item := it.ObjectName.drop path.length
      let item := if HasPrefix item ['/'] then item.drop 1 else item
      match Split item with
      | [] => .error .runtimePanic
      | [f0] =>
        if !ItemInArray files f0 then List.loop path items (files ++ [f0]) directories
        else List.loop path items files directories
      | f0 :: _ :: _ =>
        if !ItemInArray directories f0 then List.loop path items files (directories ++ [f0])
        else List.loop path items files directories

/-- The body of `driver.List` after the list-objects call has returned `res`. -/
def driver.ListOf (path : Str) (res : Except RemoteError (List ObjectSummary)) :
    Except Error (List Str) :=
  match res with
  | .error _ => .error (.PathNotFoundError path)
  | .ok items =>
    match List.loop path items [] [] with
    | .error e => .error e
    | .ok (files, directories) => .ok (files ++ directories)

/-- The method `driver.List`. -/
def driver.List (R : Remote) (b : Bucket) (path : Str) : Except Error (List Str) × Bucket :=
  let r := ListObjects R b path
  (driver.ListOf path r.1, r.2)

/-- The loop of `driver.Delete` over `items[i:]`. -/
def Delete.loop (R : Remote) : List ObjectSummary → Bucket → Bucket
  | [], b => b
  | it :: items, b => Delete.loop R items (DeleteObject R b it.ObjectName).2

/-- The method `driver.Delete`: it returns the nil error on every path. -/
def driver.Delete (R : Remote) (b : Bucket) (objectPath : Str) : Option Error × Bucket :=
  match ListObjects R b objectPath with
  | (.error _, b1) => (none, b1)
  | (.ok items, b1) => (none, Delete.loop R items b1)

/-! ## Construction -/

/-- A value of a configuration mapping (`interface{}`): nil, a string, an integer, a
boolean, or any other value, given by the way `fmt.Sprint` renders it. -/
inductive Value where
  | null
  | str (s : Str)
  | int (n : Int)
  | bool (b : Bool)
  | other (rendering : Str)
  deriving DecidableEq, Repr

/-- The library function `fmt.Sprint` on a configuration value. -/
def Sprint : Value → Str
  | .null => "<nil>".toList
  | .str s => s
  | .int n => (toString n).toList
  | .bool b => (toString b).toList
  | .other rendering => rendering

/-- The struct `DriverParameters`. -/
structure DriverParameters where
  accessKeyId : Str
  secretAccessKey : Str
  bucketName : Str
  endpoint : Str
  deriving DecidableEq, Repr

/-- The part of `bos.Client` the driver touches: the credentials it was built
from and its `Host`. -/
structure Client where
  accessKeyId : Str
  secretAccessKey : Str
  Host : Str
  deriving DecidableEq, Repr

/-- The struct `driver`. -/
structure driver where
  Client : Client
  bucketName : Str
  deriving DecidableEq, Repr

/-- What a constructor returns, together with the number of calls it made to
`bos.NewClient`. -/
structure Construction where
  result : Except Error driver
  clientsBuilt : Nat

/-- The function `New`.  `NewClient` stands for `bos.NewClient` applied to the
credentials built from the two keys. -/
def New (NewClient : Str → Str → Except RemoteError Client) (params : DriverParameters) :
    Construction :=
  match NewClient params.accessKeyId params.secretAccessKey with
  | .error e => ⟨.error (.remote e), 1⟩
  | .ok client =>
    let client := if params.endpoint ≠ [] then { client with Host := params.endpoint } else client
    ⟨.ok ⟨client, params.bucketName⟩, 1⟩

/-- The function `FromParameters`; `parameters k` is the map lookup `parameters[k]`. -/
def FromParameters (NewClient : Str → Str → Except RemoteError Client)
    (parameters : Str → Option Value) : Construction :=
  match parameters "accesskeyid".toList with
  | none => ⟨.error (.config "No accesskeyid parameter provided".toList), 0⟩
  | some accessKeyId =>
    if Sprint accessKeyId = [] then
      ⟨.error (.config "No accesskeyid parameter provided".toList), 0⟩
    else
      match parameters "accesskeysecret".toList with
      | none => ⟨.error (.config "No accesskeysecret parameter provided".toList), 0⟩
      | some secretAccessKey =>
        if Sprint secretAccessKey = [] then
          ⟨.error (.config "No accesskeysecret parameter provided".toList), 0⟩
        else
          match parameters "bucket".toList with
          | none => ⟨.error (.config "No bucket parameter provided".toList), 0⟩
          | some bucketName =>
            if Sprint bucketName = [] then
              ⟨.error (.config "No bucket parameter provided".toList), 0⟩
            else
              let endpoint : Value :=
                match parameters "endpoint".toList with
                | none => .str []
                | some v => v
              New NewClient
                ⟨Sprint accessKeyId, Sprint secretAccessKey, Sprint bucketName, Sprint endpoint⟩

/-! ## Notions used to state the properties -/

/-- What is left of a key once the path and one leading `/` are stripped from it. -/
def remainder (path key : Str) : Str :=
  if HasPrefix (key.drop path.length) ['/'] then (key.drop path.length).drop 1
  else key.drop path.length

/-- A configuration field is missing when it is absent from the mapping or renders as
the empty string. -/
def missing (parameters : Str → Option Value) (k : Str) : Bool :=
  match parameters k with
  | none => true
  | some v => decide (Sprint v = [])

/-- The rendering of a configuration field, empty when the field is absent. -/
def rendered (parameters : Str → Option Value) (k : Str) : Str :=
  match parameters k with
  | none => []
  | some v => Sprint v

/-- The upload-part calls that go with a list of part descriptors: one call per
descriptor, in order, with the descriptor's part number and checksum; the call for the
descriptor at position `k` carries the bytes of read `i + k`. -/
def uploadCalls (path : Str) (uploadId : Nat) (reader : Reader) :
    Nat → List PartInfo → List Call
  | _, [] => []
  | i, p :: ps =>
    .UploadPart path uploadId p.PartNumber (reader i).data p.ETag ::
      uploadCalls path uploadId reader (i + 1) ps

/-- The invariant of the chunk loop at the start of a pass, relative to the calls `c0`
received when the loop was entered: the index is one more than the number of reads, the
accumulated descriptors are numbered `1, 2, …` up to the number of reads, and the calls
made since are the upload-part calls that go with the descriptors. -/
def LoopInv (path : Str) (uploadId : Nat) (reader : Reader) (c0 : List Call)
    (s : LoopState) : Prop :=
  s.index = s.reads + 1 ∧
  s.parts.map PartInfo.PartNumber = List.range' 1 s.reads ∧
  s.bucket.calls = c0 ++ uploadCalls path uploadId reader 0 s.parts

/-- A source that fills the buffer on its first read and ends on its second. -/
def twoChunks : Reader := fun k =>
  if k = 0 then ⟨List.replicate buffSize 7, none⟩
  else if k = 1 then ⟨[4, 5], some .EOF⟩
  else ⟨[], some .EOF⟩

/-- A source that delivers three bytes on its first read and the remaining two, with
end-of-input, on its second. -/
def shortReads : Reader := fun k =>
  if k = 0 then ⟨[1, 2, 3], none⟩
  else if k = 1 then ⟨[4, 5], some .EOF⟩
  else ⟨[], some .EOF⟩

/-- A source whose first read fills the buffer and whose every later read reports a read
error that is not end-of-input. -/
def stuckReads : Reader := fun k =>
  if k = 0 then ⟨List.replicate buffSize 0, none⟩
  else ⟨[], some (.other 1)⟩

/-- The bytes delivered by the first `n` reads of a source. -/
def bytesRead (reader : Reader) : Nat → Bytes
  | 0 => []
  | n + 1 => bytesRead reader n ++ (reader n).data

/-- The descriptor of a part held by the remote. -/
def StoredPart.info (m : StoredPart) : PartInfo := ⟨m.partNumber, m.eTag⟩

/-- The concatenation of the bodies of a list of held parts. -/
def bodies : List StoredPart → Bytes
  | [] => []
  | m :: ms => m.body ++ bodies ms

/-- The state of a multi-part session at the start of a pass, on a remote without
transport errors: the session is open and holds, after whatever it held when the loop was
entered (`held`), one part per read performed, numbered from 1, whose descriptors are the
accumulated ones and whose bodies make up the bytes read so far. -/
def SessionInv (path : Str) (uploadId : Nat) (reader : Reader) (held : List StoredPart)
    (s : LoopState) : Prop :=
  s.index = s.reads + 1 ∧
  ∃ u mine, findUpload path uploadId s.bucket.uploads = some u ∧
    u.Parts = held ++ mine ∧
    s.parts = mine.map StoredPart.info ∧
    mine.map StoredPart.partNumber = List.range' 1 s.reads ∧
    bodies mine = bytesRead reader s.reads

/-- A source that hands over a payload the way `bytes.Reader` does: every read fills the
buffer as far as bytes remain, and a read with no byte left reports end-of-input. -/
def bytesReader (payload : Bytes) : Reader := fun k =>
  if payload.drop (k * buffSize) = [] then ⟨[], some .EOF⟩
  else ⟨(payload.drop (k * buffSize)).take buffSize, none⟩

/-- A configuration mapping with the three required fields and an endpoint. -/
def exampleParameters : Str → Option Value := fun k =>
  if k = "accesskeyid".toList then some (.str "id".toList)
  else if k = "accesskeysecret".toList then some (.str "secret".toList)
  else if k = "bucket".toList then some (.str "registry".toList)
  else if k = "endpoint".toList then some (.str "bj.bcebos.com".toList)
  else none

/-- A client constructor that succeeds, with `bos.example` as the default host. -/
def exampleNewClient : Str → Str → Except RemoteError Client :=
  fun accessKeyId secretAccessKey => .ok ⟨accessKeyId, secretAccessKey, "bos.example".toList⟩

/-! ## Facts about the bucket -/

theorem lookupKey_removeKey_self (key : Str) (objs : List (Str × Bytes)) :
    lookupKey key (removeKey key objs) = none := by
  induction objs with
  | nil => rfl
  | cons kv rest ih =>
    by_cases h : kv.1 = key
    · simpa [removeKey, List.filter_cons, h] using ih
    · simpa [removeKey, List.filter_cons, h, lookupKey] using ih

theorem lookupKey_append (key : Str) (xs ys : List (Str × Bytes)) :
    lookupKey key (xs ++ ys) = (lookupKey key xs).orElse (fun _ => lookupKey key ys) := by
  induction xs with
  | nil => simp [lookupKey]
  | cons kv rest ih =>
    by_cases h : kv.1 = key
    · simp [lookupKey, h]
    · simpa [lookupKey, h] using ih

theorem lookupKey_storeKey_self (key : Str) (data : Bytes) (objs : List (Str × Bytes)) :
    lookupKey key (storeKey key data objs) = some data := by
  simp [storeKey, lookupKey_append, lookupKey_removeKey_self, lookupKey]

theorem lookupKey_eq_none_of_no_prefix (path : Str) (objs : List (Str × Bytes))
    (h : ∀ kv ∈ objs, ¬ path <+: kv.1) : lookupKey path objs = none := by
  induction objs with
  | nil => rfl
  | cons kv rest ih =>
    have h1 : ¬ kv.1 = path := fun e => h kv (List.mem_cons_self _ _) (e ▸ List.prefix_refl _)
    simpa [lookupKey, h1] using ih (fun kv1 hm => h kv1 (List.mem_cons_of_mem _ hm))

theorem filter_prefix_eq_nil (path : Str) (objs : List (Str × Bytes))
    (h : ∀ kv ∈ objs, ¬ path <+: kv.1) :
    objs.filter (fun kv => path.isPrefixOf kv.1) = [] := by
  rw [List.filter_eq_nil_iff]
  intro kv hm
  simpa using h kv hm

theorem faulty_eq_false (R : Remote) (hR : ∀ n, R.fault n = false) (b : Bucket) :
    b.faulty R = false := hR _

/-! ## Stat -/

/-- C3: `Stat` classifies by the number of objects the prefix listing returned: none gives
the path-not-found error for the path, exactly one gives a file descriptor with that
object's size, more than one gives a directory descriptor with the size left at zero;
and `driver.Stat` is this classification applied to the listing it issues. -/
theorem Stat_classifies_by_match_count (R : Remote) (b : Bucket) (path : Str)
    (Contents : List ObjectSummary) :
    (Contents.length = 0 →
      driver.StatOf path (.ok Contents) = .error (.PathNotFoundError path)) ∧
    (∀ o, Contents = [o] → driver.StatOf path (.ok Contents) = .ok ⟨path, o.Size, false⟩) ∧
    (Contents.length > 1 → driver.StatOf path (.ok Contents) = .ok ⟨path, 0, true⟩) ∧
    (driver.Stat R b path).1 = driver.StatOf path (ListObjects R b path).1 := by
  refine ⟨?_, ?_, ?_, rfl⟩
  · intro h
    simp [driver.StatOf, h]
  · intro o h
    subst h
    simp [driver.StatOf]
  · intro h
    have h1 : ¬ Contents.length < 1 := by omega
    simp [driver.StatOf, h1, h]

/-- Witness for C3: after writing 10 bytes to `a/b.txt` into the empty bucket, the listing
for `a/b.txt` has one entry and `Stat` reports size 10 and is-directory false. -/
theorem Stat_classifies_by_match_count_witness :
    (ListObjects Remote.reliable
        (driver.PutContent Remote.reliable Bucket.empty "a/b.txt".toList (List.range 10)).2
        "a/b.txt".toList).1 = .ok [⟨"a/b.txt".toList, 10⟩] ∧
    (driver.Stat Remote.reliable
        (driver.PutContent Remote.reliable Bucket.empty "a/b.txt".toList (List.range 10)).2
        "a/b.txt".toList).1 = .ok ⟨"a/b.txt".toList, 10, false⟩ := by
  have hl : (ListObjects Remote.reliable
      (driver.PutContent Remote.reliable Bucket.empty "a/b.txt".toList (List.range 10)).2
      "a/b.txt".toList).1 = .ok [⟨"a/b.txt".toList, 10⟩] := by decide
  have h := Stat_classifies_by_match_count Remote.reliable
    (driver.PutContent Remote.reliable Bucket.empty "a/b.txt".toList (List.range 10)).2
    "a/b.txt".toList [⟨"a/b.txt".toList, 10⟩]
  refine ⟨hl, ?_⟩
  rw [h.2.2.2, hl]
  exact h.2.1 _ rfl

/-! ## Paths never written -/

/-- C4, as stated, fails: after writing 10 bytes to `a/b.txt` into the empty bucket no
object is stored at the key `a`, yet `Stat` on `a` returns a descriptor and no error. -/
theorem Stat_unwritten_path_counterexample :
    lookupKey "a".toList
      (driver.PutContent Remote.reliable Bucket.empty "a/b.txt".toList
        (List.range 10)).2.objects = none ∧
    (driver.Stat Remote.reliable
      (driver.PutContent Remote.reliable Bucket.empty "a/b.txt".toList (List.range 10)).2
      "a".toList).1 = .ok ⟨"a".toList, 10, false⟩ := by
  decide

/-- C4, amended: `GetContent` fails with the path-not-found error for the path whenever no
object is stored at that exact key, and `Stat` fails with it whenever no stored key
starts with the path; both whatever transport errors the remote reports. -/
theorem unwritten_path_not_found (R : Remote) (b : Bucket) (path : Str) :
    (lookupKey path b.objects = none →
      (driver.GetContent R b path).1 = .error (.PathNotFoundError path)) ∧
    ((∀ kv ∈ b.objects, ¬ path <+: kv.1) →
      (driver.Stat R b path).1 = .error (.PathNotFoundError path)) := by
  constructor
  · intro h
    unfold driver.GetContent GetObject
    by_cases hf : b.faulty R = true
    · simp [hf]
    · simp [hf, h]
  · intro h
    unfold driver.Stat ListObjects
    by_cases hf : b.faulty R = true
    · simp [hf, driver.StatOf]
    · simp [hf, driver.StatOf, filter_prefix_eq_nil path b.objects h]

/-- Witness for C4: in the bucket holding only `a/b.txt`, nothing is stored at `z` and no
key starts with `z`; reading and stat-ing `z` both fail with the path-not-found error. -/
theorem unwritten_path_not_found_witness :
    (driver.GetContent Remote.reliable
      (driver.PutContent Remote.reliable Bucket.empty "a/b.txt".toList (List.range 10)).2
      "z".toList).1 = .error (.PathNotFoundError "z".toList) ∧
    (driver.Stat Remote.reliable
      (driver.PutContent Remote.reliable Bucket.empty "a/b.txt".toList (List.range 10)).2
      "z".toList).1 = .error (.PathNotFoundError "z".toList) :=
  ⟨(unwritten_path_not_found Remote.reliable
      (driver.PutContent Remote.reliable Bucket.empty "a/b.txt".toList (List.range 10)).2
      "z".toList).1 (by decide),
   (unwritten_path_not_found Remote.reliable
      (driver.PutContent Remote.reliable Bucket.empty "a/b.txt".toList (List.range 10)).2
      "z".toList).2 (by decide)⟩

/-! ## Move -/

/-- C6 at the failing input: on the bucket holding `a/b` and `ab`, with every call
succeeding, `Delete` on `a` leaves the bucket empty: the object at `ab`, whose key is
neither `a` nor under `a/`, is removed as well. -/
theorem Delete_removes_sibling_with_common_prefix :
    "ab".toList ≠ "a".toList ∧ ¬ "a/".toList <+: "ab".toList ∧
    lookupKey "ab".toList
      (driver.PutContent Remote.reliable
        (driver.PutContent Remote.reliable Bucket.empty "a/b".toList [1]).2
        "ab".toList [2]).2.objects = some [2] ∧
    lookupKey "ab".toList
      (driver.Delete Remote.reliable
        (driver.PutContent Remote.reliable
          (driver.PutContent Remote.reliable Bucket.empty "a/b".toList [1]).2
          "ab".toList [2]).2
        "a".toList).2.objects = none := by
  refine ⟨by decide, ?_, by decide, by decide⟩
  rw [← List.isPrefixOf_iff_prefix]
  decide

theorem removeKey_of_absent (key : Str) (objs : List (Str × Bytes))
    (h : lookupKey key objs = none) : removeKey key objs = objs := by
  induction objs with
  | nil => rfl
  | cons kv rest ih =>
    by_cases hk : kv.1 = key
    · simp [lookupKey, hk] at h
    · have h1 : lookupKey key rest = none := by simpa [lookupKey, hk] using h
      have := ih h1
      show List.filter _ (kv :: rest) = kv :: rest
      rw [List.filter_cons_of_pos (by simpa using hk)]
      exact congrArg (List.cons kv) this

theorem DeleteObject_objects (R : Remote) (hR : ∀ n, R.fault n = false) (b : Bucket)
    (key : Str) : (DeleteObject R b key).2.objects = removeKey key b.objects := by
  cases h : lookupKey key b.objects with
  | none => simp [DeleteObject, Bucket.faulty, hR, h, Bucket.record, removeKey_of_absent]
  | some d => simp [DeleteObject, Bucket.faulty, hR, h]

theorem Delete_loop_objects (R : Remote) (hR : ∀ n, R.fault n = false)
    (items : List ObjectSummary) :
    ∀ b : Bucket, (Delete.loop R items b).objects =
      b.objects.filter (fun kv => decide (kv.1 ∉ items.map ObjectSummary.ObjectName)) := by
  induction items with
  | nil => intro b; simp [Delete.loop]
  | cons it rest ih =>
    intro b
    rw [Delete.loop, ih, DeleteObject_objects R hR, removeKey, List.filter_filter]
    apply List.filter_congr
    intro kv _
    by_cases h1 : kv.1 = it.ObjectName <;> simp [h1]

/-- What `Delete` does on a remote without transport errors: it removes exactly the
objects whose key starts with the path, as a string, and leaves the others as they are. -/
theorem Delete_removes_keys_with_prefix (R : Remote) (hR : ∀ n, R.fault n = false)
    (b : Bucket) (objectPath : Str) :
    (driver.Delete R b objectPath).2.objects =
      b.objects.filter (fun kv => !objectPath.isPrefixOf kv.1) := by
  simp only [driver.Delete, ListObjects, Bucket.faulty, hR, Bool.false_eq_true, if_false]
  rw [Delete_loop_objects R hR]
  simp only [Bucket.record]
  apply List.filter_congr
  intro kv hkv
  by_cases hp : objectPath.isPrefixOf kv.1 = true
  · have : kv.1 ∈ List.map ObjectSummary.ObjectName
        (List.map (fun kv => (⟨kv.1, (kv.2.length : Int)⟩ : ObjectSummary))
          (List.filter (fun kv => objectPath.isPrefixOf kv.1) b.objects)) := by
      simp only [List.map_map, List.mem_map, List.mem_filter]
      exact ⟨kv, ⟨hkv, hp⟩, rfl⟩
    simp only [hp, Bool.not_true]
    exact decide_eq_false (fun h => h this)
  · have : kv.1 ∉ List.map ObjectSummary.ObjectName
        (List.map (fun kv => (⟨kv.1, (kv.2.length : Int)⟩ : ObjectSummary))
          (List.filter (fun kv => objectPath.isPrefixOf kv.1) b.objects)) := by
      simp only [List.map_map, List.mem_map, List.mem_filter, not_exists]
      rintro kv1 ⟨⟨_, hp1⟩, he⟩
      have he1 : kv1.1 = kv.1 := he
      exact hp (he1 ▸ hp1)
    have hp1 : objectPath.isPrefixOf kv.1 = false := Bool.eq_false_iff.2 hp
    simp only [hp1, Bool.not_false]
    exact decide_eq_true this

/-! ## List on an empty listing -/

/-- C7, as stated, fails: on the empty bucket the prefix listing for `a` succeeds with zero
keys and `List` returns the empty sequence and no error. -/
theorem List_empty_listing_counterexample :
    (ListObjects Remote.reliable Bucket.empty "a".toList).1 = .ok [] ∧
    (driver.List Remote.reliable Bucket.empty "a".toList).1 = .ok [] := by
  decide

theorem ItemInArray_iff (arr : List Str) (item : Str) : ItemInArray arr item = true ↔ item ∈ arr := by
  induction arr with
  | nil => simp [ItemInArray]
  | cons f rest ih =>
    by_cases h : f = item
    · simp [ItemInArray, h]
    · have h1 : ¬ item = f := fun e => h e.symm
      simp [ItemInArray, h, h1, ih]

theorem List_loop_error (path : Str) (items : List ObjectSummary) :
    ∀ (files directories : List Str) (e : Error),
      List.loop path items files directories = .error e → e = .runtimePanic := by
  induction items with
  | nil => intro files directories e h; simp [List.loop] at h
  | cons it rest ih =>
    intro files directories e h
    unfold List.loop at h
    split at h
    · simpa using h.symm
    · dsimp only at h
      split at h
      · simpa using h.symm
      · split at h
        · exact ih _ _ _ h
        · exact ih _ _ _ h
      · split at h
        · exact ih _ _ _ h
        · exact ih _ _ _ h

/-- C7, amended: when the prefix listing succeeds with zero keys `List` returns the empty
sequence and no error; `List` fails with the path-not-found error for the path exactly
when the listing call itself fails. -/
theorem List_not_found_iff_listing_fails (R : Remote) (b : Bucket) (path : Str) :
    ((ListObjects R b path).1 = .ok [] → (driver.List R b path).1 = .ok []) ∧
    ((driver.List R b path).1 = .error (.PathNotFoundError path) ↔
      ∃ e, (ListObjects R b path).1 = .error e) := by
  constructor
  · intro h
    simp [driver.List, h, driver.ListOf, List.loop]
  · simp only [driver.List]
    cases hres : (ListObjects R b path).1 with
    | error e => simp [driver.ListOf]
    | ok items =>
      simp only [driver.ListOf]
      cases hl : List.loop path items [] [] with
      | error e =>
        have := List_loop_error path items [] [] e hl
        subst this
        simp
      | ok fd => simp

/-- Witness for C7: in the bucket holding only `b`, the listing for `a` succeeds with
zero keys and `List` returns the empty sequence. -/
theorem List_not_found_iff_listing_fails_witness :
    (ListObjects Remote.reliable
      (driver.PutContent Remote.reliable Bucket.empty "b".toList [1]).2 "a".toList).1 = .ok [] ∧
    (driver.List Remote.reliable
      (driver.PutContent Remote.reliable Bucket.empty "b".toList [1]).2 "a".toList).1 = .ok [] :=
  ⟨by decide,
   (List_not_found_iff_listing_fails Remote.reliable
      (driver.PutContent Remote.reliable Bucket.empty "b".toList [1]).2 "a".toList).1
      (by decide)⟩

/-! ## List -/

theorem List_loop_spec (path : Str) (items : List ObjectSummary) :
    ∀ (files directories : List Str),
      (∀ it ∈ items, path.length ≤ it.ObjectName.length) →
      files.Nodup → directories.Nodup →
      ∃ fs ds, List.loop path items files directories = .ok (fs, ds) ∧
        fs.Nodup ∧ ds.Nodup ∧
        (∀ n, n ∈ fs ↔ n ∈ files ∨
          ∃ it ∈ items, Split (remainder path it.ObjectName) = [n]) ∧
        (∀ n, n ∈ ds ↔ n ∈ directories ∨
          ∃ it ∈ items, ∃ f r, Split (remainder path it.ObjectName) = n :: f :: r) := by
  induction items with
  | nil =>
    intro files directories _ hf hd
    exact ⟨files, directories, by simp [List.loop], hf, hd, by simp, by simp⟩
  | cons it rest ih =>
    intro files directories hlen hf hd
    have hlen1 : ¬ path.length > it.ObjectName.length := by
      have := hlen it (List.mem_cons_self _ _)
      omega
    have hrest : ∀ it1 ∈ rest, path.length ≤ it1.ObjectName.length :=
      fun it1 hm => hlen it1 (List.mem_cons_of_mem _ hm)
    unfold List.loop
    simp only [hlen1, if_false]
    have hrem : (if HasPrefix (List.drop path.length it.ObjectName) ['/'] = true
        then List.drop 1 (List.drop path.length it.ObjectName)
        else List.drop path.length it.ObjectName) = remainder path it.ObjectName := rfl
    rw [hrem]
    cases hsp : Split (remainder path it.ObjectName) with
    | nil =>
      exfalso
      revert hsp
      generalize remainder path it.ObjectName = s
      cases s with
      | nil => simp [Split]
      | cons c cs =>
        unfold Split
        split
        · simp
        · split <;> simp
    | cons f0 tl =>
      cases tl with
      | nil =>
        simp only []
        by_cases hin : f0 ∈ files
        · have hia : ItemInArray files f0 = true := (ItemInArray_iff _ _).2 hin
          simp only [hia, Bool.not_true, Bool.false_eq_true, if_false]
          obtain ⟨fs, ds, h1, h2, h3, h4, h5⟩ := ih files directories hrest hf hd
          refine ⟨fs, ds, h1, h2, h3, ?_, ?_⟩
          · intro n
            rw [h4 n]
            constructor
            · rintro (h | ⟨it1, hm, hs⟩)
              · exact Or.inl h
              · exact Or.inr ⟨it1, List.mem_cons_of_mem _ hm, hs⟩
            · rintro (h | ⟨it1, hm, hs⟩)
              · exact Or.inl h
              · rcases List.mem_cons.1 hm with rfl | hm
                · rw [hsp] at hs
                  have : f0 = n := by simpa using hs
                  exact Or.inl (this ▸ hin)
                · exact Or.inr ⟨it1, hm, hs⟩
          · intro n
            rw [h5 n]
            constructor
            · rintro (h | ⟨it1, hm, hs⟩)
              · exact Or.inl h
              · exact Or.inr ⟨it1, List.mem_cons_of_mem _ hm, hs⟩
            · rintro (h | ⟨it1, hm, f, r, hs⟩)
              · exact Or.inl h
              · rcases List.mem_cons.1 hm with rfl | hm
                · rw [hsp] at hs
                  simp at hs
                · exact Or.inr ⟨it1, hm, f, r, hs⟩
        · have hia : ItemInArray files f0 = false := by
            rw [← Bool.not_eq_true, ItemInArray_iff]; exact hin
          simp only [hia, Bool.not_false, if_true]
          have hf1 : (files ++ [f0]).Nodup := by
            rw [List.nodup_append]
            exact ⟨hf, List.nodup_singleton _, by
              intro a ha hb
              have : a = f0 := by simpa using hb
              exact hin (this ▸ ha)⟩
          obtain ⟨fs, ds, h1, h2, h3, h4, h5⟩ := ih (files ++ [f0]) directories hrest hf1 hd
          refine ⟨fs, ds, h1, h2, h3, ?_, ?_⟩
          · intro n
            rw [h4 n]
            constructor
            · rintro (h | ⟨it1, hm, hs⟩)
              · rcases List.mem_append.1 h with h | h
                · exact Or.inl h
                · have : n = f0 := by simpa using h
                  exact Or.inr ⟨it, List.mem_cons_self _ _, by rw [hsp, this]⟩
              · exact Or.inr ⟨it1, List.mem_cons_of_mem _ hm, hs⟩
            · rintro (h | ⟨it1, hm, hs⟩)
              · exact Or.inl (List.mem_append_left _ h)
              · rcases List.mem_cons.1 hm with rfl | hm
                · rw [hsp] at hs
                  have : f0 = n := by simpa using hs
                  exact Or.inl (by simp [this])
                · exact Or.inr ⟨it1, hm, hs⟩
          · intro n
            rw [h5 n]
            constructor
            · rintro (h | ⟨it1, hm, hs⟩)
              · exact Or.inl h
              · exact Or.inr ⟨it1, List.mem_cons_of_mem _ hm, hs⟩
            · rintro (h | ⟨it1, hm, f, r, hs⟩)
              · exact Or.inl h
              · rcases List.mem_cons.1 hm with rfl | hm
                · rw [hsp] at hs
                  simp at hs
                · exact Or.inr ⟨it1, hm, f, r, hs⟩
      | cons f1 tl1 =>
        simp only []
        by_cases hin : f0 ∈ directories
        · have hia : ItemInArray directories f0 = true := (ItemInArray_iff _ _).2 hin
          simp only [hia, Bool.not_true, Bool.false_eq_true, if_false]
          obtain ⟨fs, ds, h1, h2, h3, h4, h5⟩ := ih files directories hrest hf hd
          refine ⟨fs, ds, h1, h2, h3, ?_, ?_⟩
          · intro n
            rw [h4 n]
            constructor
            · rintro (h | ⟨it1, hm, hs⟩)
              · exact Or.inl h
              · exact Or.inr ⟨it1, List.mem_cons_of_mem _ hm, hs⟩
            · rintro (h | ⟨it1, hm, hs⟩)
              · exact Or.inl h
              · rcases List.mem_cons.1 hm with rfl | hm
                · rw [hsp] at hs
                  simp at hs
                · exact Or.inr ⟨it1, hm, hs⟩
          · intro n
            rw [h5 n]
            constructor
            · rintro (h | ⟨it1, hm, hs⟩)
              · exact Or.inl h
              · exact Or.inr ⟨it1, List.mem_cons_of_mem _ hm, hs⟩
            · rintro (h | ⟨it1, hm, f, r, hs⟩)
              · exact Or.inl h
              · rcases List.mem_cons.1 hm with rfl | hm
                · rw [hsp] at hs
                  have : f0 = n := by
                    have := congrArg List.head? hs
                    simpa using this
                  exact Or.inl (this ▸ hin)
                · exact Or.inr ⟨it1, hm, f, r, hs⟩
        · have hia : ItemInArray directories f0 = false := by
            rw [← Bool.not_eq_true, ItemInArray_iff]; exact hin
          simp only [hia, Bool.not_false, if_true]
          have hd1 : (directories ++ [f0]).Nodup := by
            rw [List.nodup_append]
            exact ⟨hd, List.nodup_singleton _, by
              intro a ha hb
              have : a = f0 := by simpa using hb
              exact hin (this ▸ ha)⟩
          obtain ⟨fs, ds, h1, h2, h3, h4, h5⟩ := ih files (directories ++ [f0]) hrest hf hd1
          refine ⟨fs, ds, h1, h2, h3, ?_, ?_⟩
          · intro n
            rw [h4 n]
            constructor
            · rintro (h | ⟨it1, hm, hs⟩)
              · exact Or.inl h
              · exact Or.inr ⟨it1, List.mem_cons_of_mem _ hm, hs⟩
            · rintro (h | ⟨it1, hm, hs⟩)
              · exact Or.inl h
              · rcases List.mem_cons.1 hm with rfl | hm
                · rw [hsp] at hs
                  simp at hs
                · exact Or.inr ⟨it1, hm, hs⟩
          · intro n
            rw [h5 n]
            constructor
            · rintro (h | ⟨it1, hm, hs⟩)
              · rcases List.mem_append.1 h with h | h
                · exact Or.inl h
                · have : n = f0 := by simpa using h
                  exact Or.inr ⟨it, List.mem_cons_self _ _, f1, tl1, by rw [hsp, this]⟩
              · exact Or.inr ⟨it1, List.mem_cons_of_mem _ hm, hs⟩
            · rintro (h | ⟨it1, hm, f, r, hs⟩)
              · exact Or.inl (List.mem_append_left _ h)
              · rcases List.mem_cons.1 hm with rfl | hm
                · rw [hsp] at hs
                  have : f0 = n := by
                    have := congrArg List.head? hs
                    simpa using this
                  exact Or.inl (by simp [this])
                · exact Or.inr ⟨it1, hm, f, r, hs⟩

/-- C2, as stated, fails: for the path `a` and the listing `a/c`, `a/c/d`, whose keys all
start with `a`, `List` returns `c` twice, once as a file and once as a directory. -/
theorem List_repeats_name_counterexample :
    (∀ it ∈ ([⟨"a/c".toList, 1⟩, ⟨"a/c/d".toList, 1⟩] : List ObjectSummary),
      "a".toList <+: it.ObjectName) ∧
    driver.ListOf "a".toList (.ok [⟨"a/c".toList, 1⟩, ⟨"a/c/d".toList, 1⟩]) =
      .ok ["c".toList, "c".toList] ∧
    ¬ (["c".toList, "c".toList] : List Str).Nodup := by
  refine ⟨?_, by decide, by decide⟩
  intro it hit
  rw [← List.isPrefixOf_iff_prefix]
  revert it
  decide

/-- C2, amended: for every path and every listing whose keys all start with the path,
`List` returns the file names followed by the directory names, where no file name is
repeated and no directory name is repeated; the file names are exactly the single
segments and the directory names exactly the first segments of the multi-segment
remainders obtained by stripping the path and one leading `/` from each key and splitting
on `/`; hence the names returned are exactly the first segments, and the result has no
repeated name unless some name is both a file and a directory. -/
theorem List_files_then_directories (path : Str) (items : List ObjectSummary)
    (hpre : ∀ it ∈ items, path <+: it.ObjectName) :
    ∃ files directories,
      driver.ListOf path (.ok items) = .ok (files ++ directories) ∧
      files.Nodup ∧ directories.Nodup ∧
      (∀ n, n ∈ files ↔ ∃ it ∈ items, Split (remainder path it.ObjectName) = [n]) ∧
      (∀ n, n ∈ directories ↔
        ∃ it ∈ items, ∃ f r, Split (remainder path it.ObjectName) = n :: f :: r) ∧
      (∀ n, n ∈ files ++ directories ↔
        ∃ it ∈ items, (Split (remainder path it.ObjectName)).head? = some n) ∧
      ((∀ n, n ∈ files → n ∉ directories) → (files ++ directories).Nodup) := by
  have hlen : ∀ it ∈ items, path.length ≤ it.ObjectName.length :=
    fun it hm => (hpre it hm).length_le
  obtain ⟨fs, ds, h1, h2, h3, h4, h5⟩ :=
    List_loop_spec path items [] [] hlen List.nodup_nil List.nodup_nil
  refine ⟨fs, ds, by simp [driver.ListOf, h1], h2, h3, by simpa using h4, by simpa using h5,
    ?_, ?_⟩
  · intro n
    rw [List.mem_append, h4 n, h5 n]
    constructor
    · rintro ((h | ⟨it, hm, hs⟩) | (h | ⟨it, hm, f, r, hs⟩))
      · simp at h
      · exact ⟨it, hm, by rw [hs]; rfl⟩
      · simp at h
      · exact ⟨it, hm, by rw [hs]; rfl⟩
    · rintro ⟨it, hm, hs⟩
      cases hsp : Split (remainder path it.ObjectName) with
      | nil => rw [hsp] at hs; simp at hs
      | cons f0 tl =>
        rw [hsp] at hs
        have hn : f0 = n := by simpa using hs
        subst hn
        cases tl with
        | nil => exact Or.inl (Or.inr ⟨it, hm, hsp⟩)
        | cons f1 tl1 => exact Or.inr (Or.inr ⟨it, hm, f1, tl1, hsp⟩)
  · intro hdisj
    rw [List.nodup_append]
    exact ⟨h2, h3, fun a ha hb => hdisj a ha hb⟩

/-- Witness for C2: the keys `a/b.txt`, `a/c/d`, `a/c/e` with the path `a` give
`b.txt` followed by `c`. -/
theorem List_files_then_directories_witness :
    (∀ it ∈ ([⟨"a/b.txt".toList, 10⟩, ⟨"a/c/d".toList, 1⟩, ⟨"a/c/e".toList, 2⟩] :
        List ObjectSummary), "a".toList <+: it.ObjectName) ∧
    driver.ListOf "a".toList
      (.ok [⟨"a/b.txt".toList, 10⟩, ⟨"a/c/d".toList, 1⟩, ⟨"a/c/e".toList, 2⟩]) =
      .ok ["b.txt".toList, "c".toList] ∧
    ∃ files directories,
      driver.ListOf "a".toList
        (.ok [⟨"a/b.txt".toList, 10⟩, ⟨"a/c/d".toList, 1⟩, ⟨"a/c/e".toList, 2⟩]) =
        .ok (files ++ directories) ∧ files.Nodup ∧ directories.Nodup := by
  have hpre : ∀ it ∈ ([⟨"a/b.txt".toList, 10⟩, ⟨"a/c/d".toList, 1⟩, ⟨"a/c/e".toList, 2⟩] :
      List ObjectSummary), "a".toList <+: it.ObjectName := by
    intro it hit
    rw [← List.isPrefixOf_iff_prefix]
    revert it
    decide
  obtain ⟨files, directories, h1, h2, h3, _⟩ :=
    List_files_then_directories "a".toList
      [⟨"a/b.txt".toList, 10⟩, ⟨"a/c/d".toList, 1⟩, ⟨"a/c/e".toList, 2⟩] hpre
  exact ⟨hpre, by decide, files, directories, h1, h2, h3⟩

/-! ## Construction from a configuration mapping -/

theorem Sprint_str (s : Str) : Sprint (.str s) = s := rfl

/-- C8: `FromParameters` fails with a configuration error, no client having been built,
exactly when one of `accesskeyid`, `accesskeysecret`, `bucket` is absent or renders as
the empty string, and the message names the first such field in that order.  When none
is missing the outcome is that of building the client from the two rendered keys: a
failure there is passed on, and on success the driver holds the rendered bucket name and
the client, whose host is left as built when the endpoint is absent or renders empty and
is the rendered endpoint otherwise. -/
theorem FromParameters_validation (NewClient : Str → Str → Except RemoteError Client)
    (parameters : Str → Option Value) :
    ((∃ msg, (FromParameters NewClient parameters).result = .error (.config msg) ∧
        (FromParameters NewClient parameters).clientsBuilt = 0) ↔
      (missing parameters "accesskeyid".toList ∨ missing parameters "accesskeysecret".toList ∨
        missing parameters "bucket".toList)) ∧
    (missing parameters "accesskeyid".toList →
      (FromParameters NewClient parameters).result =
        .error (.config "No accesskeyid parameter provided".toList)) ∧
    (¬ missing parameters "accesskeyid".toList → missing parameters "accesskeysecret".toList →
      (FromParameters NewClient parameters).result =
        .error (.config "No accesskeysecret parameter provided".toList)) ∧
    (¬ missing parameters "accesskeyid".toList → ¬ missing parameters "accesskeysecret".toList →
      missing parameters "bucket".toList →
      (FromParameters NewClient parameters).result =
        .error (.config "No bucket parameter provided".toList)) ∧
    (¬ missing parameters "accesskeyid".toList → ¬ missing parameters "accesskeysecret".toList →
      ¬ missing parameters "bucket".toList →
      (∀ e, NewClient (rendered parameters "accesskeyid".toList)
          (rendered parameters "accesskeysecret".toList) = .error e →
        (FromParameters NewClient parameters).result = .error (.remote e)) ∧
      (∀ client, NewClient (rendered parameters "accesskeyid".toList)
          (rendered parameters "accesskeysecret".toList) = .ok client →
        (FromParameters NewClient parameters).result =
          .ok ⟨{ client with
                  Host := if missing parameters "endpoint".toList then client.Host
                          else rendered parameters "endpoint".toList },
                rendered parameters "bucket".toList⟩)) := by
  unfold FromParameters missing rendered
  generalize "accesskeyid".toList = k1
  generalize "accesskeysecret".toList = k2
  generalize "bucket".toList = k3
  generalize "endpoint".toList = k4
  cases h1 : parameters k1 with
  | none => simp
  | some v1 =>
    by_cases e1 : Sprint v1 = []
    · simp [e1]
    · cases h2 : parameters k2 with
      | none => simp [e1]
      | some v2 =>
        by_cases e2 : Sprint v2 = []
        · simp [e1, e2]
        · cases h3 : parameters k3 with
          | none => simp [e1, e2]
          | some v3 =>
            by_cases e3 : Sprint v3 = []
            · simp [e1, e2, e3]
            · cases h4 : parameters k4 with
              | none =>
                cases hc : NewClient (Sprint v1) (Sprint v2) with
                | error e => simp [New, Sprint_str, e1, e2, e3, hc]
                | ok client => simp [New, Sprint_str, e1, e2, e3, hc]
              | some v4 =>
                cases hc : NewClient (Sprint v1) (Sprint v2) with
                | error e => simp [New, e1, e2, e3, hc]
                | ok client =>
                  by_cases e4 : Sprint v4 = []
                  · simp [New, e1, e2, e3, hc, e4]
                  · simp [New, e1, e2, e3, hc, e4]

/-- Witness for C8: with the three required fields and the endpoint `bj.bcebos.com`
present, construction succeeds and the client's host is the endpoint; with the mapping
empty, it fails naming `accesskeyid`. -/
theorem FromParameters_validation_witness :
    (FromParameters exampleNewClient exampleParameters).result =
      .ok ⟨⟨"id".toList, "secret".toList, "bj.bcebos.com".toList⟩, "registry".toList⟩ ∧
    (FromParameters exampleNewClient (fun _ => none)).result =
      .error (.config "No accesskeyid parameter provided".toList) :=
  ⟨((FromParameters_validation exampleNewClient exampleParameters).2.2.2.2
      (by decide) (by decide) (by decide)).2 ⟨"id".toList, "secret".toList, "bos.example".toList⟩
      (by decide),
   (FromParameters_validation exampleNewClient (fun _ => none)).2.1 (by decide)⟩

/-! ## WriteStream: the calls the loop makes -/

theorem uploadCalls_append (path : Str) (uploadId : Nat) (reader : Reader)
    (ps : List PartInfo) (p : PartInfo) :
    ∀ i, uploadCalls path uploadId reader i (ps ++ [p]) =
      uploadCalls path uploadId reader i ps ++
        [.UploadPart path uploadId p.PartNumber (reader (i + ps.length)).data p.ETag] := by
  induction ps with
  | nil => intro i; simp [uploadCalls]
  | cons q qs ih =>
    intro i
    simp [uploadCalls, ih (i + 1), Nat.add_assoc, Nat.add_comm 1]

theorem UploadPart_ok_calls (R : Remote) (b b1 : Bucket) (key : Str) (uploadId n : Nat)
    (body : Bytes) (eTag : Str) (h : UploadPart R b key uploadId n body = (.ok eTag, b1)) :
    b1.calls = b.calls ++ [.UploadPart key uploadId n body eTag] := by
  unfold UploadPart at h
  dsimp only at h
  split at h
  · simp at h
  · split at h
    · simp at h
    · simp only [Prod.mk.injEq, Except.ok.injEq] at h
      obtain ⟨h1, h2⟩ := h
      subst h2
      simp [Bucket.record, h1]

theorem UploadPart_error_calls (R : Remote) (b b1 : Bucket) (key : Str) (uploadId n : Nat)
    (body : Bytes) (e : RemoteError) (h : UploadPart R b key uploadId n body = (.error e, b1)) :
    ∃ eTag, b1.calls = b.calls ++ [.UploadPart key uploadId n body eTag] := by
  unfold UploadPart at h
  dsimp only at h
  split at h
  · simp only [Prod.mk.injEq] at h
    exact ⟨_, by rw [← h.2]; rfl⟩
  · split at h
    · simp only [Prod.mk.injEq] at h
      exact ⟨_, by rw [← h.2]; rfl⟩
    · simp at h

theorem CompleteMultipartUpload_calls (R : Remote) (b : Bucket) (key : Str) (uploadId : Nat)
    (parts : List PartInfo) :
    (CompleteMultipartUpload R b key uploadId parts).2.calls =
      b.calls ++ [.CompleteMultipartUpload key uploadId parts] := by
  unfold CompleteMultipartUpload
  dsimp only
  split
  · rfl
  · split
    · rfl
    · split
      · split <;> rfl
      · rfl

theorem AbortMultipartUpload_calls (R : Remote) (b : Bucket) (key : Str) (uploadId : Nat) :
    (AbortMultipartUpload R b key uploadId).2.calls =
      b.calls ++ [.AbortMultipartUpload key uploadId] := by
  unfold AbortMultipartUpload
  dsimp only
  split
  · rfl
  · split <;> rfl

theorem PutObject_calls (R : Remote) (b : Bucket) (key : Str) (body : Bytes) :
    (PutObject R b key body).2.calls = b.calls ++ [.PutObject key body] := by
  unfold PutObject
  dsimp only
  split <;> rfl

theorem InitiateMultipartUpload_calls (R : Remote) (b : Bucket) (key : Str) :
    (InitiateMultipartUpload R b key).2.calls = b.calls ++ [.InitiateMultipartUpload key] := by
  unfold InitiateMultipartUpload
  dsimp only
  split <;> rfl

/-- A pass of the loop that goes on to the next pass has made one upload-part call, with
the current index and the bytes just read, and has appended the descriptor for it. -/
theorem WriteStream_body_inl (R : Remote) (path : Str) (uploadId : Nat) (reader : Reader)
    (s s1 : LoopState) (h : WriteStream.body R path uploadId reader s = .inl s1) :
    s1.index = s.index + 1 ∧ s1.reads = s.reads + 1 ∧
    ∃ eTag, s1.parts = s.parts ++ [⟨s.index, eTag⟩] ∧
      s1.bucket.calls =
        s.bucket.calls ++ [.UploadPart path uploadId s.index (reader s.reads).data eTag] := by
  unfold WriteStream.body at h
  dsimp only at h
  split at h
  · split at h <;> simp at h
  · split at h
    · simp at h
    · rename_i eTag b1 hup
      split at h
      · split at h <;> simp at h
      · simp only [Sum.inl.injEq] at h
        subst h
        exact ⟨rfl, rfl, eTag, rfl, UploadPart_ok_calls _ _ _ _ _ _ _ _ hup⟩

/-- A pass of the loop that returns has read once more and has left by one of three exits:
the single put on the first pass, a failed upload-part call, or the completion call made
with the accumulated descriptors and the one for the part just uploaded. -/
theorem WriteStream_body_inr (R : Remote) (path : Str) (uploadId : Nat) (reader : Reader)
    (s : LoopState) (out : WriteResult)
    (h : WriteStream.body R path uploadId reader s = .inr out) :
    out.reads = s.reads + 1 ∧
    ((s.index = 1 ∧ out.bucket.calls = s.bucket.calls ++
        [.AbortMultipartUpload path uploadId, .PutObject path (reader s.reads).data]) ∨
     (∃ eTag, out.bucket.calls =
        s.bucket.calls ++ [.UploadPart path uploadId s.index (reader s.reads).data eTag]) ∨
     (∃ eTag, out.bucket.calls = s.bucket.calls ++
        [.UploadPart path uploadId s.index (reader s.reads).data eTag,
         .CompleteMultipartUpload path uploadId (s.parts ++ [⟨s.index, eTag⟩])])) := by
  unfold WriteStream.body at h
  dsimp only at h
  split at h
  · rename_i hfirst
    have hc := PutObject_calls R (AbortMultipartUpload R s.bucket path uploadId).2 path
      (reader s.reads).data
    rw [AbortMultipartUpload_calls] at hc
    split at h
    · rename_i e b2 hput
      simp only [Sum.inr.injEq] at h
      subst h
      rw [hput] at hc
      exact ⟨rfl, Or.inl ⟨hfirst.1, by simpa using hc⟩⟩
    · rename_i u b2 hput
      simp only [Sum.inr.injEq] at h
      subst h
      rw [hput] at hc
      exact ⟨rfl, Or.inl ⟨hfirst.1, by simpa using hc⟩⟩
  · split at h
    · rename_i e b1 hup
      simp only [Sum.inr.injEq] at h
      subst h
      obtain ⟨eTag, hc⟩ := UploadPart_error_calls _ _ _ _ _ _ _ _ hup
      exact ⟨rfl, Or.inr (Or.inl ⟨eTag, hc⟩)⟩
    · rename_i eTag b1 hup
      have hc1 := UploadPart_ok_calls _ _ _ _ _ _ _ _ hup
      split at h
      · have hc := CompleteMultipartUpload_calls R b1 path uploadId (s.parts ++ [⟨s.index, eTag⟩])
        split at h
        · rename_i e b2 hcm
          simp only [Sum.inr.injEq] at h
          subst h
          rw [hcm] at hc
          exact ⟨rfl, Or.inr (Or.inr ⟨eTag, by simpa [hc1] using hc⟩)⟩
        · rename_i u b2 hcm
          simp only [Sum.inr.injEq] at h
          subst h
          rw [hcm] at hc
          exact ⟨rfl, Or.inr (Or.inr ⟨eTag, by simpa [hc1] using hc⟩)⟩
      · simp at h

theorem LoopInv_parts_length (path : Str) (uploadId : Nat) (reader : Reader) (c0 : List Call)
    (s : LoopState) (h : LoopInv path uploadId reader c0 s) : s.parts.length = s.reads := by
  have := congrArg List.length h.2.1
  simpa using this

theorem LoopInv_start (path : Str) (uploadId : Nat) (reader : Reader) (b : Bucket) :
    LoopInv path uploadId reader b.calls (WriteStream.start b) := by
  simp [LoopInv, WriteStream.start, uploadCalls]

theorem LoopInv_extend (path : Str) (uploadId : Nat) (reader : Reader) (c0 : List Call)
    (parts : List PartInfo) (calls : List Call) (index reads : Nat) (eTag : Str)
    (h1 : index = reads + 1)
    (h2 : parts.map PartInfo.PartNumber = List.range' 1 reads)
    (h3 : calls = c0 ++ uploadCalls path uploadId reader 0 parts) :
    (parts ++ [(⟨index, eTag⟩ : PartInfo)]).map PartInfo.PartNumber = List.range' 1 (reads + 1) ∧
    calls ++ [.UploadPart path uploadId index (reader reads).data eTag] =
      c0 ++ uploadCalls path uploadId reader 0 (parts ++ [⟨index, eTag⟩]) := by
  have hlen : parts.length = reads := by
    have := congrArg List.length h2
    simpa using this
  constructor
  · rw [List.map_append, h2, List.range'_concat, h1]
    simp [Nat.add_comm]
  · rw [uploadCalls_append, h3, hlen]
    simp

theorem LoopInv_step (R : Remote) (path : Str) (uploadId : Nat) (reader : Reader)
    (c0 : List Call) (s s1 : LoopState) (hinv : LoopInv path uploadId reader c0 s)
    (h : WriteStream.body R path uploadId reader s = .inl s1) :
    LoopInv path uploadId reader c0 s1 := by
  obtain ⟨hi, hr, eTag, hp, hc⟩ := WriteStream_body_inl R path uploadId reader s s1 h
  obtain ⟨h1, h2, h3⟩ := hinv
  obtain ⟨e1, e2⟩ := LoopInv_extend path uploadId reader c0 s.parts s.bucket.calls s.index
    s.reads eTag h1 h2 h3
  refine ⟨by omega, ?_, ?_⟩
  · rw [hp, hr]; exact e1
  · rw [hc, hp]; exact e2

theorem LoopInv_stateAt (R : Remote) (path : Str) (uploadId : Nat) (reader : Reader)
    (s0 : LoopState) (hinv : LoopInv path uploadId reader s0.bucket.calls s0) :
    ∀ k s, WriteStream.stateAt R path uploadId reader s0 k = some s →
      LoopInv path uploadId reader s0.bucket.calls s ∧ s.reads = s0.reads + k := by
  intro k
  induction k with
  | zero =>
    intro s h
    simp only [WriteStream.stateAt, Option.some.injEq] at h
    subst h
    exact ⟨hinv, rfl⟩
  | succ k ih =>
    intro s h
    unfold WriteStream.stateAt at h
    split at h
    · simp at h
    · rename_i s1 hs1
      split at h
      · rename_i s2 hb
        simp only [Option.some.injEq] at h
        subst h
        obtain ⟨hi1, hr1⟩ := ih s1 hs1
        refine ⟨LoopInv_step R path uploadId reader _ s1 s2 hi1 hb, ?_⟩
        have := (WriteStream_body_inl R path uploadId reader s1 s2 hb).2.1
        omega
      · simp at h

theorem LoopInv_loop (R : Remote) (path : Str) (uploadId : Nat) (reader : Reader)
    (c0 : List Call) :
    ∀ (fuel : Nat) (s : LoopState) (out : WriteResult) (key : Str) (id : Nat)
      (parts : List PartInfo),
      LoopInv path uploadId reader c0 s →
      WriteStream.loop R path uploadId reader fuel s = some out →
      out.bucket.calls.getLast? = some (.CompleteMultipartUpload key id parts) →
      key = path ∧ id = uploadId ∧ parts.length = out.reads ∧
      parts.map PartInfo.PartNumber = List.range' 1 out.reads ∧
      out.bucket.calls = c0 ++ uploadCalls path uploadId reader 0 parts ++
        [.CompleteMultipartUpload path uploadId parts] := by
  intro fuel
  induction fuel with
  | zero => intro s out key id parts _ h; simp [WriteStream.loop] at h
  | succ fuel ih =>
    intro s out key id parts hinv h hlast
    unfold WriteStream.loop at h
    split at h
    · rename_i s1 hb
      exact ih s1 out key id parts (LoopInv_step R path uploadId reader c0 s s1 hinv hb) h hlast
    · rename_i out1 hb
      simp only [Option.some.injEq] at h
      subst h
      obtain ⟨hr, hcases⟩ := WriteStream_body_inr R path uploadId reader s out1 hb
      obtain ⟨h1, h2, h3⟩ := hinv
      rcases hcases with ⟨_, hc⟩ | ⟨eTag, hc⟩ | ⟨eTag, hc⟩
      · rw [hc] at hlast
        simp at hlast
      · rw [hc] at hlast
        simp at hlast
      · rw [hc] at hlast
        have hl : (s.bucket.calls ++
            [Call.UploadPart path uploadId s.index (reader s.reads).data eTag,
             Call.CompleteMultipartUpload path uploadId (s.parts ++ [⟨s.index, eTag⟩])]).getLast?
            = some (Call.CompleteMultipartUpload path uploadId (s.parts ++ [⟨s.index, eTag⟩])) := by
          simp
        rw [hl] at hlast
        simp only [Option.some.injEq, Call.CompleteMultipartUpload.injEq] at hlast
        obtain ⟨hk, hid, hparts⟩ := hlast
        obtain ⟨e1, e2⟩ := LoopInv_extend path uploadId reader c0 s.parts s.bucket.calls s.index
          s.reads eTag h1 h2 h3
        subst hk hid hparts
        refine ⟨rfl, rfl, ?_, ?_, ?_⟩
        · have := congrArg List.length e1
          simpa [hr] using this
        · rw [hr]; exact e1
        · rw [hc, ← e2]
          simp

/-- C10: in every run of `WriteStream`, at the start of every pass of the chunk loop the
accumulated part list is numbered `1, 2, …, k` where `k` is the number of reads performed
so far, and the calls made since the session was opened are exactly one upload-part call
per descriptor, in order, the k-th with part number `k`, the bytes of the k-th read and
the checksum that the k-th descriptor carries.  Whenever the run ends with the completion
call, the part list passed to it has one descriptor per read performed, numbered
`1, …, n`, and the calls of the run are the initiate call, those upload-part calls and the
completion call. -/
theorem WriteStream_parts_contiguous (R : Remote) (b : Bucket) (path : Str) (offset : Int)
    (reader : Reader) :
    (∀ k uploadId b1 s, InitiateMultipartUpload R b path = (.ok uploadId, b1) →
      WriteStream.stateAt R path uploadId reader (WriteStream.start b1) k = some s →
      s.reads = k ∧ s.index = k + 1 ∧ s.parts.length = k ∧
      s.parts.map PartInfo.PartNumber = List.range' 1 k ∧
      s.bucket.calls = b.calls ++ [.InitiateMultipartUpload path] ++
        uploadCalls path uploadId reader 0 s.parts) ∧
    (∀ fuel out key uploadId parts,
      driver.WriteStream fuel R b path offset reader = some out →
      out.bucket.calls.getLast? = some (.CompleteMultipartUpload key uploadId parts) →
      key = path ∧ parts.length = out.reads ∧
      parts.map PartInfo.PartNumber = List.range' 1 out.reads ∧
      out.bucket.calls = b.calls ++ [.InitiateMultipartUpload path] ++
        uploadCalls path uploadId reader 0 parts ++
        [.CompleteMultipartUpload path uploadId parts]) := by
  constructor
  · intro k uploadId b1 s hinit hs
    have hc0 : b1.calls = b.calls ++ [.InitiateMultipartUpload path] := by
      have := InitiateMultipartUpload_calls R b path
      rwa [hinit] at this
    obtain ⟨hinv, hr⟩ := LoopInv_stateAt R path uploadId reader (WriteStream.start b1)
      (LoopInv_start path uploadId reader b1) k s hs
    have hr0 : s.reads = k := by simpa [WriteStream.start] using hr
    have hlen := LoopInv_parts_length _ _ _ _ _ hinv
    obtain ⟨h1, h2, h3⟩ := hinv
    refine ⟨hr0, by omega, by omega, by rw [← hr0]; exact h2, ?_⟩
    rw [h3]
    simp [WriteStream.start, hc0]
  · intro fuel out key uploadId parts hrun hlast
    unfold driver.WriteStream at hrun
    have hcalls := InitiateMultipartUpload_calls R b path
    split at hrun
    · rename_i e b1 hinit
      simp only [Option.some.injEq] at hrun
      subst hrun
      rw [hinit] at hcalls
      simp only at hlast hcalls
      rw [hcalls] at hlast
      simp at hlast
    · rename_i id b1 hinit
      rw [hinit] at hcalls
      simp only at hcalls
      obtain ⟨h1, h2, h3, h4, h5⟩ := LoopInv_loop R path id reader b1.calls fuel
        (WriteStream.start b1) out key uploadId parts (LoopInv_start path id reader b1) hrun hlast
      subst h2
      exact ⟨h1, h3, h4, by rw [h5, hcalls]⟩

theorem two_reads_run (reader : Reader) (d1 d2 : Bytes) (h0 : reader 0 = ⟨d1, none⟩)
    (h1 : reader 1 = ⟨d2, some .EOF⟩) (hlen : d1.length = buffSize) :
    driver.WriteStream 2 Remote.reliable Bucket.empty "k".toList 0 reader =
      some ⟨int64 (int64 (0 + (buffSize : Int)) + (d2.length : Int)), none, 2,
        ⟨[("k".toList, d1 ++ d2)], [], 1,
         [.InitiateMultipartUpload "k".toList,
          .UploadPart "k".toList 0 1 d1 [],
          .UploadPart "k".toList 0 2 d2 [],
          .CompleteMultipartUpload "k".toList 0 [⟨1, []⟩, ⟨2, []⟩]]⟩⟩ := by
  simp [driver.WriteStream, InitiateMultipartUpload, Bucket.faulty, Remote.reliable,
    Bucket.empty, Bucket.record, WriteStream.loop, WriteStream.body, WriteStream.start,
    h0, h1, hlen, UploadPart, findUpload, addPart, CompleteMultipartUpload, assemble, partBody,
    storeKey, removeKey, dropUpload, List.range']

theorem findUpload_addPart (key : Str) (uploadId : Nat) (p : StoredPart) (us : List Upload)
    (u : Upload) (h : findUpload key uploadId us = some u) :
    findUpload key uploadId (addPart key uploadId p us) =
      some { u with Parts := u.Parts ++ [p] } := by
  induction us with
  | nil => simp [findUpload] at h
  | cons v vs ih =>
    by_cases hv : v.UploadId = uploadId ∧ v.Key = key
    · have hu : v = u := by simpa [findUpload, List.find?_cons, hv] using h
      subst hu
      simp [findUpload, addPart, List.find?_cons, hv]
    · have h1 : findUpload key uploadId vs = some u := by
        simpa [findUpload, List.find?_cons, hv] using h
      have := ih h1
      simpa [findUpload, addPart, List.find?_cons, hv] using this

theorem findUpload_after_initiate (key : Str) (us : List Upload) (n : Nat) :
    ∃ u, findUpload key n (us ++ [⟨n, key, []⟩]) = some u := by
  induction us with
  | nil => exact ⟨⟨n, key, []⟩, by simp [findUpload]⟩
  | cons v vs ih =>
    by_cases hv : v.UploadId = n ∧ v.Key = key
    · exact ⟨v, by simp [findUpload, List.find?_cons, hv]⟩
    · obtain ⟨u, hu⟩ := ih
      exact ⟨u, by simpa [findUpload, List.find?_cons, hv] using hu⟩

/-- With no transport error and the session open, a pass that neither takes the single-put
exit nor reads end-of-input goes on to the next pass, the session still open. -/
theorem WriteStream_body_continues (R : Remote) (hR : ∀ n, R.fault n = false) (path : Str)
    (uploadId : Nat) (reader : Reader) (s : LoopState) (u : Upload)
    (hopen : findUpload path uploadId s.bucket.uploads = some u)
    (hbig : ¬ (s.index = 1 ∧ (reader s.reads).data.length < buffSize))
    (herr : (reader s.reads).err ≠ some .EOF) :
    ∃ s1 u1, WriteStream.body R path uploadId reader s = .inl s1 ∧
      findUpload path uploadId s1.bucket.uploads = some u1 := by
  have hup : UploadPart R s.bucket path uploadId s.index (reader s.reads).data =
      (.ok (R.etag s.bucket.calls.length (reader s.reads).data),
        { s.bucket.record (.UploadPart path uploadId s.index (reader s.reads).data
            (R.etag s.bucket.calls.length (reader s.reads).data)) with
          uploads := addPart path uploadId
            ⟨s.index, R.etag s.bucket.calls.length (reader s.reads).data, (reader s.reads).data⟩
            s.bucket.uploads }) := by
    simp [UploadPart, Bucket.faulty, hR, hopen]
  refine ⟨⟨int64 (s.totalRead + ((reader s.reads).data.length : Int)), s.index + 1,
      s.parts ++ [⟨s.index, R.etag s.bucket.calls.length (reader s.reads).data⟩], s.reads + 1,
      { s.bucket.record (.UploadPart path uploadId s.index (reader s.reads).data
            (R.etag s.bucket.calls.length (reader s.reads).data)) with
          uploads := addPart path uploadId
            ⟨s.index, R.etag s.bucket.calls.length (reader s.reads).data, (reader s.reads).data⟩
            s.bucket.uploads }⟩, _, ?_,
    findUpload_addPart path uploadId
      ⟨s.index, R.etag s.bucket.calls.length (reader s.reads).data, (reader s.reads).data⟩
      s.bucket.uploads u hopen⟩
  unfold WriteStream.body
  simp only [hbig, if_false, hup, herr]

theorem WriteStream_loop_never_returns (R : Remote) (hR : ∀ n, R.fault n = false) (path : Str)
    (uploadId : Nat) (reader : Reader) (hfull : buffSize ≤ (reader 0).data.length)
    (herr : ∀ k, (reader k).err ≠ some .EOF) :
    ∀ (fuel : Nat) (s : LoopState), s.index = s.reads + 1 →
      (∃ u, findUpload path uploadId s.bucket.uploads = some u) →
      WriteStream.loop R path uploadId reader fuel s = none := by
  intro fuel
  induction fuel with
  | zero => intro s _ _; rfl
  | succ fuel ih =>
    intro s hidx hopen
    obtain ⟨u, hu⟩ := hopen
    have hbig : ¬ (s.index = 1 ∧ (reader s.reads).data.length < buffSize) := by
      rintro ⟨h1, h2⟩
      have h0 : s.reads = 0 := by omega
      rw [h0] at h2
      omega
    obtain ⟨s1, u1, hb, hu1⟩ :=
      WriteStream_body_continues R hR path uploadId reader s u hu hbig (herr _)
    obtain ⟨hi, hr, _⟩ := WriteStream_body_inl R path uploadId reader s s1 hb
    unfold WriteStream.loop
    rw [hb]
    exact ih s1 (by omega) ⟨u1, hu1⟩

/-- On a remote that reports no transport error, `WriteStream` never returns for a source
whose first read fills the buffer and none of whose reads reports end-of-input, whatever
else the reads report. -/
theorem WriteStream_never_returns (R : Remote) (hR : ∀ n, R.fault n = false) (b : Bucket)
    (path : Str) (offset : Int) (reader : Reader)
    (hfull : buffSize ≤ (reader 0).data.length) (herr : ∀ k, (reader k).err ≠ some .EOF)
    (fuel : Nat) : driver.WriteStream fuel R b path offset reader = none := by
  have hinit : InitiateMultipartUpload R b path =
      (.ok b.nextUploadId,
        { b.record (.InitiateMultipartUpload path) with
          uploads := b.uploads ++ [⟨b.nextUploadId, path, []⟩],
          nextUploadId := b.nextUploadId + 1 }) := by
    simp [InitiateMultipartUpload, Bucket.faulty, hR]
  unfold driver.WriteStream
  rw [hinit]
  exact WriteStream_loop_never_returns R hR path _ reader hfull herr fuel _ rfl
    (findUpload_after_initiate path b.uploads b.nextUploadId)

/-- C1 at the failing input: the source delivers the bytes 1 to 5 in two reads, of three and
of two bytes, the second with end-of-input.  `WriteStream` into the empty bucket, with
every call succeeding, returns after the first read with no error and 3 bytes counted,
and reading the path back gives only the first three bytes. -/
theorem WriteStream_short_first_read_truncates :
    (shortReads 0).data ++ (shortReads 1).data = [1, 2, 3, 4, 5] ∧
    (shortReads 1).err = some .EOF ∧
    (driver.WriteStream 1 Remote.reliable Bucket.empty "k".toList 0 shortReads).map
      (fun out => (out.err, out.totalRead, out.reads,
        (driver.GetContent Remote.reliable out.bucket "k".toList).1)) =
      some (none, 3, 1, .ok [1, 2, 3]) := by
  decide

/-- C9 at the failing input: the source fills the buffer on its first read and reports a
read error on its second read and on every later one.  With every remote call
succeeding, `WriteStream` has not returned after any number of passes of its loop. -/
theorem WriteStream_read_error_never_returns :
    (stuckReads 1).err = some (.other 1) ∧
    ∀ fuel, driver.WriteStream fuel Remote.reliable Bucket.empty "k".toList 0 stuckReads
      = none := by
  refine ⟨rfl, fun fuel => ?_⟩
  apply WriteStream_never_returns Remote.reliable (fun _ => rfl)
  · simp [stuckReads]
  · intro k
    unfold stuckReads
    split <;> simp

theorem two_reads_stateAt (reader : Reader) (d1 : Bytes) (h0 : reader 0 = ⟨d1, none⟩)
    (hlen : d1.length = buffSize) :
    WriteStream.stateAt Remote.reliable "k".toList 0 reader
      (WriteStream.start ⟨[], [⟨0, "k".toList, []⟩], 1, [.InitiateMultipartUpload "k".toList]⟩)
      1 =
      some ⟨int64 (0 + (buffSize : Int)), 2, [⟨1, []⟩], 1,
        ⟨[], [⟨0, "k".toList, [⟨1, [], d1⟩]⟩], 1,
         [.InitiateMultipartUpload "k".toList, .UploadPart "k".toList 0 1 d1 []]⟩⟩ := by
  simp [WriteStream.stateAt, WriteStream.body, WriteStream.start, Bucket.faulty,
    Remote.reliable, Bucket.record, h0, hlen, UploadPart, findUpload, addPart]

theorem twoChunks_stateAt :
    WriteStream.stateAt Remote.reliable "k".toList 0 twoChunks
      (WriteStream.start ⟨[], [⟨0, "k".toList, []⟩], 1, [.InitiateMultipartUpload "k".toList]⟩)
      1 =
      some ⟨int64 (0 + (buffSize : Int)), 2, [⟨1, []⟩], 1,
        ⟨[], [⟨0, "k".toList, [⟨1, [], List.replicate buffSize 7⟩]⟩], 1,
         [.InitiateMultipartUpload "k".toList,
          .UploadPart "k".toList 0 1 (List.replicate buffSize 7) []]⟩⟩ :=
  two_reads_stateAt twoChunks (List.replicate buffSize 7) rfl (List.length_replicate _ _)

theorem twoChunks_run :
    driver.WriteStream 2 Remote.reliable Bucket.empty "k".toList 0 twoChunks =
      some ⟨int64 (int64 (0 + (buffSize : Int)) + 2), none, 2,
        ⟨[("k".toList, List.replicate buffSize 7 ++ [4, 5])], [], 1,
         [.InitiateMultipartUpload "k".toList,
          .UploadPart "k".toList 0 1 (List.replicate buffSize 7) [],
          .UploadPart "k".toList 0 2 [4, 5] [],
          .CompleteMultipartUpload "k".toList 0 [⟨1, []⟩, ⟨2, []⟩]]⟩⟩ :=
  two_reads_run twoChunks (List.replicate buffSize 7) [4, 5] rfl rfl (List.length_replicate _ _)

/-- Witness for C10: the source fills the buffer on its first read and ends on its second;
the loop reaches its second pass with the descriptor for part 1 accumulated and one
upload-part call made, and the run ends with the completion call for the parts 1 and 2. -/
theorem WriteStream_parts_contiguous_witness :
    InitiateMultipartUpload Remote.reliable Bucket.empty "k".toList =
      (.ok 0, ⟨[], [⟨0, "k".toList, []⟩], 1, [.InitiateMultipartUpload "k".toList]⟩) ∧
    (∃ s, WriteStream.stateAt Remote.reliable "k".toList 0 twoChunks
        (WriteStream.start
          ⟨[], [⟨0, "k".toList, []⟩], 1, [.InitiateMultipartUpload "k".toList]⟩) 1 = some s ∧
      s.index = 2 ∧ s.parts.map PartInfo.PartNumber = [1] ∧
      s.bucket.calls = [.InitiateMultipartUpload "k".toList] ++
        uploadCalls "k".toList 0 twoChunks 0 s.parts) ∧
    (∃ out, driver.WriteStream 2 Remote.reliable Bucket.empty "k".toList 0 twoChunks = some out ∧
      out.bucket.calls.getLast? =
        some (.CompleteMultipartUpload "k".toList 0 [⟨1, []⟩, ⟨2, []⟩]) ∧
      out.reads = 2 ∧
      out.bucket.calls = [.InitiateMultipartUpload "k".toList] ++
        uploadCalls "k".toList 0 twoChunks 0 [⟨1, []⟩, ⟨2, []⟩] ++
        [.CompleteMultipartUpload "k".toList 0 [⟨1, []⟩, ⟨2, []⟩]]) := by
  have hlast : (⟨[("k".toList, List.replicate buffSize 7 ++ [4, 5])], [], 1,
         [.InitiateMultipartUpload "k".toList,
          .UploadPart "k".toList 0 1 (List.replicate buffSize 7) [],
          .UploadPart "k".toList 0 2 [4, 5] [],
          .CompleteMultipartUpload "k".toList 0 [⟨1, []⟩, ⟨2, []⟩]]⟩ : Bucket).calls.getLast? =
      some (.CompleteMultipartUpload "k".toList 0 [⟨1, []⟩, ⟨2, []⟩]) := rfl
  have h := WriteStream_parts_contiguous Remote.reliable Bucket.empty "k".toList 0 twoChunks
  have h1 := h.1 1 0 _ _ rfl twoChunks_stateAt
  have h2 := h.2 2 _ "k".toList 0 [⟨1, []⟩, ⟨2, []⟩] twoChunks_run hlast
  exact ⟨rfl, ⟨_, twoChunks_stateAt, h1.2.1, h1.2.2.2.1, h1.2.2.2.2⟩,
    ⟨_, twoChunks_run, hlast, h2.2.1.symm ▸ rfl, h2.2.2.2⟩⟩

/-! ## WriteStream: sources that end with end-of-input -/

theorem WriteStream_body_inl_not_eof (R : Remote) (path : Str) (uploadId : Nat)
    (reader : Reader) (s s1 : LoopState)
    (h : WriteStream.body R path uploadId reader s = .inl s1) :
    (reader s.reads).err ≠ some .EOF := by
  unfold WriteStream.body at h
  dsimp only at h
  split at h
  · split at h <;> simp at h
  · split at h
    · simp at h
    · split at h
      · split at h <;> simp at h
      · assumption

theorem WriteStream_loop_returns (R : Remote) (path : Str) (uploadId : Nat) (reader : Reader) :
    ∀ (n : Nat) (s : LoopState), (reader (s.reads + n)).err = some .EOF →
      ∃ out, WriteStream.loop R path uploadId reader (n + 1) s = some out := by
  intro n
  induction n with
  | zero =>
    intro s h
    unfold WriteStream.loop
    cases hb : WriteStream.body R path uploadId reader s with
    | inl s1 => exact absurd h (WriteStream_body_inl_not_eof R path uploadId reader s s1 hb)
    | inr out => exact ⟨out, rfl⟩
  | succ n ih =>
    intro s h
    unfold WriteStream.loop
    cases hb : WriteStream.body R path uploadId reader s with
    | inl s1 =>
      have hr := (WriteStream_body_inl R path uploadId reader s s1 hb).2.1
      have h1 : (reader (s1.reads + n)).err = some .EOF := by
        rw [hr]
        have : s.reads + 1 + n = s.reads + (n + 1) := by omega
        rw [this]
        exact h
      exact ih s1 h1
    | inr out => exact ⟨out, rfl⟩

/-- For every remote behaviour, `WriteStream` returns within `n + 1` passes of its loop on
a source whose read number `n` (counted from zero) reports end-of-input. -/
theorem WriteStream_returns_on_EOF (R : Remote) (b : Bucket) (path : Str) (offset : Int)
    (reader : Reader) (n : Nat) (h : (reader n).err = some .EOF) :
    ∃ out, driver.WriteStream (n + 1) R b path offset reader = some out := by
  unfold driver.WriteStream
  split
  · exact ⟨_, rfl⟩
  · apply WriteStream_loop_returns
    simpa [WriteStream.start] using h

/-! ## WriteStream: reading back what was written -/

theorem bodies_append (ms : List StoredPart) (m : StoredPart) :
    bodies (ms ++ [m]) = bodies ms ++ m.body := by
  induction ms with
  | nil => simp [bodies]
  | cons x xs ih => simp [bodies, ih]

theorem find_part_of_nodup (l : List StoredPart) (m : StoredPart) (hm : m ∈ l)
    (hnd : (l.map StoredPart.partNumber).Nodup) :
    l.find? (fun x => decide (x.partNumber = m.partNumber)) = some m := by
  induction l with
  | nil => simp at hm
  | cons x xs ih =>
    by_cases hx : x.partNumber = m.partNumber
    · have : x = m :=
        List.inj_on_of_nodup_map hnd (List.mem_cons_self _ _) hm hx
      simp [List.find?_cons, this]
    · have hm1 : m ∈ xs := by
        rcases List.mem_cons.1 hm with rfl | h
        · exact absurd rfl hx
        · exact h
      have hnd1 : (xs.map StoredPart.partNumber).Nodup := by
        rw [List.map_cons] at hnd
        exact hnd.of_cons
      simpa [List.find?_cons, hx] using ih hm1 hnd1

theorem partBody_own (held mine : List StoredPart) (m : StoredPart) (hm : m ∈ mine)
    (hnd : (mine.map StoredPart.partNumber).Nodup) :
    partBody (held ++ mine) m.info = some m.body := by
  have hnd1 : (mine.reverse.map StoredPart.partNumber).Nodup := by
    rw [List.map_reverse]
    exact List.nodup_reverse.2 hnd
  have hf := find_part_of_nodup mine.reverse m (List.mem_reverse.2 hm) hnd1
  unfold partBody
  rw [List.reverse_append, List.find?_append]
  simp only [StoredPart.info]
  rw [hf]
  simp

theorem assemble_own (held mine : List StoredPart)
    (hnd : (mine.map StoredPart.partNumber).Nodup) :
    ∀ ms : List StoredPart, (∀ m ∈ ms, m ∈ mine) →
      assemble (held ++ mine) (ms.map StoredPart.info) = some (bodies ms) := by
  intro ms
  induction ms with
  | nil => intro _; rfl
  | cons m rest ih =>
    intro hsub
    have h1 := partBody_own held mine m (hsub m (List.mem_cons_self _ _)) hnd
    have h2 := ih (fun x hx => hsub x (List.mem_cons_of_mem _ hx))
    simp only [List.map_cons, assemble, h1, h2, bodies]

theorem SessionInv_upload (R : Remote) (hR : ∀ n, R.fault n = false) (path : Str)
    (uploadId : Nat) (reader : Reader) (held : List StoredPart) (s : LoopState)
    (hinv : SessionInv path uploadId reader held s) :
    ∃ eTag b1 u mine,
      UploadPart R s.bucket path uploadId s.index (reader s.reads).data = (.ok eTag, b1) ∧
      b1.objects = s.bucket.objects ∧
      findUpload path uploadId b1.uploads = some u ∧
      u.Parts = held ++ mine ∧
      s.parts ++ [⟨s.index, eTag⟩] = mine.map StoredPart.info ∧
      mine.map StoredPart.partNumber = List.range' 1 (s.reads + 1) ∧
      bodies mine = bytesRead reader (s.reads + 1) := by
  obtain ⟨hidx, u, mine, hfind, hparts, hdesc, hnum, hbytes⟩ := hinv
  refine ⟨R.etag s.bucket.calls.length (reader s.reads).data,
    { s.bucket.record (.UploadPart path uploadId s.index (reader s.reads).data
          (R.etag s.bucket.calls.length (reader s.reads).data)) with
        uploads := addPart path uploadId
          ⟨s.index, R.etag s.bucket.calls.length (reader s.reads).data, (reader s.reads).data⟩
          s.bucket.uploads },
    { u with Parts := u.Parts ++
        [⟨s.index, R.etag s.bucket.calls.length (reader s.reads).data, (reader s.reads).data⟩] },
    mine ++ [⟨s.index, R.etag s.bucket.calls.length (reader s.reads).data,
      (reader s.reads).data⟩], ?_, ?_, ?_, ?_, ?_, ?_, ?_⟩
  · simp only [UploadPart, Bucket.faulty, hR, hfind]
    rfl
  · rfl
  · exact findUpload_addPart path uploadId _ s.bucket.uploads u hfind
  · simp [hparts]
  · simp [hdesc, StoredPart.info]
  · rw [List.map_append, hnum, List.range'_concat, hidx]
    simp [Nat.add_comm]
  · rw [bodies_append, hbytes]
    rfl

/-- On a remote without transport errors, a pass of a multi-part session that does not
read end-of-input goes on to the next pass and keeps the session invariant. -/
theorem SessionInv_step (R : Remote) (hR : ∀ n, R.fault n = false) (path : Str)
    (uploadId : Nat) (reader : Reader) (held : List StoredPart) (s : LoopState)
    (hinv : SessionInv path uploadId reader held s)
    (hbig : ¬ (s.index = 1 ∧ (reader s.reads).data.length < buffSize))
    (herr : (reader s.reads).err ≠ some .EOF) :
    ∃ s1, WriteStream.body R path uploadId reader s = .inl s1 ∧
      SessionInv path uploadId reader held s1 ∧ s1.reads = s.reads + 1 := by
  obtain ⟨eTag, b1, u, mine, hup, _, hfind, hparts, hdesc, hnum, hbytes⟩ :=
    SessionInv_upload R hR path uploadId reader held s hinv
  refine ⟨⟨int64 (s.totalRead + ((reader s.reads).data.length : Int)), s.index + 1,
    s.parts ++ [⟨s.index, eTag⟩], s.reads + 1, b1⟩, ?_, ?_, rfl⟩
  · unfold WriteStream.body
    simp only [hbig, if_false, hup, herr]
  · exact ⟨by simp [hinv.1], u, mine, hfind, hparts, hdesc, hnum, hbytes⟩

/-- On a remote without transport errors, a pass of a multi-part session that reads
end-of-input completes the session: it returns without error and the object stored at
the path is the concatenation of the bytes of all reads. -/
theorem SessionInv_finish (R : Remote) (hR : ∀ n, R.fault n = false) (path : Str)
    (uploadId : Nat) (reader : Reader) (held : List StoredPart) (s : LoopState)
    (hinv : SessionInv path uploadId reader held s)
    (hbig : ¬ (s.index = 1 ∧ (reader s.reads).data.length < buffSize))
    (herr : (reader s.reads).err = some .EOF) :
    ∃ out, WriteStream.body R path uploadId reader s = .inr out ∧ out.err = none ∧
      out.reads = s.reads + 1 ∧
      lookupKey path out.bucket.objects = some (bytesRead reader (s.reads + 1)) := by
  obtain ⟨eTag, b1, u, mine, hup, _, hfind, hparts, hdesc, hnum, hbytes⟩ :=
    SessionInv_upload R hR path uploadId reader held s hinv
  have hnd : (mine.map StoredPart.partNumber).Nodup := by
    rw [hnum]
    exact List.nodup_range' _ _
  have hasm : assemble u.Parts (s.parts ++ [⟨s.index, eTag⟩]) =
      some (bytesRead reader (s.reads + 1)) := by
    rw [hparts, hdesc, ← hbytes]
    exact assemble_own held mine hnd mine (fun _ h => h)
  have hlen : mine.length = s.reads + 1 := by
    have := congrArg List.length hnum
    simpa using this
  have hord : (s.parts ++ [(⟨s.index, eTag⟩ : PartInfo)]).map (fun p : PartInfo => p.PartNumber) =
      List.range' 1 (s.parts ++ [(⟨s.index, eTag⟩ : PartInfo)]).length := by
    rw [hdesc, List.length_map, hlen, ← hnum, List.map_map]
    rfl
  have hcm : CompleteMultipartUpload R b1 path uploadId (s.parts ++ [⟨s.index, eTag⟩]) =
      (.ok (), { b1.record (.CompleteMultipartUpload path uploadId
          (s.parts ++ [⟨s.index, eTag⟩])) with
        objects := storeKey path (bytesRead reader (s.reads + 1)) b1.objects,
        uploads := dropUpload uploadId b1.uploads }) := by
    simp only [CompleteMultipartUpload, Bucket.faulty, hR, hfind, hord, hasm,
      Bool.false_eq_true, if_false, if_true]
  have hbody : WriteStream.body R path uploadId reader s =
      .inr ⟨int64 (s.totalRead + ((reader s.reads).data.length : Int)), none, s.reads + 1,
        (CompleteMultipartUpload R b1 path uploadId (s.parts ++ [⟨s.index, eTag⟩])).2⟩ := by
    unfold WriteStream.body
    simp only [hbig, if_false, hup, herr, hcm, if_true]
  refine ⟨_, hbody, rfl, rfl, ?_⟩
  rw [hcm]
  exact lookupKey_storeKey_self _ _ _

theorem GetContent_of_lookupKey (R : Remote) (hR : ∀ n, R.fault n = false) (b : Bucket)
    (path : Str) (data : Bytes) (h : lookupKey path b.objects = some data) :
    (driver.GetContent R b path).1 = .ok data := by
  simp [driver.GetContent, GetObject, Bucket.faulty, hR, h]

theorem WriteStream_loop_round_trip (R : Remote) (hR : ∀ n, R.fault n = false) (path : Str)
    (uploadId : Nat) (reader : Reader) (held : List StoredPart) (n : Nat)
    (hlast : (reader n).err = some .EOF) (hbefore : ∀ k, k < n → (reader k).err ≠ some .EOF)
    (hfull : buffSize ≤ (reader 0).data.length) :
    ∀ (m : Nat) (s : LoopState), SessionInv path uploadId reader held s → s.reads + m = n →
      ∃ out, WriteStream.loop R path uploadId reader (m + 1) s = some out ∧ out.err = none ∧
        out.reads = n + 1 ∧
        lookupKey path out.bucket.objects = some (bytesRead reader (n + 1)) := by
  intro m
  induction m with
  | zero =>
    intro s hinv hn
    have hs : s.reads = n := by omega
    have hbig : ¬ (s.index = 1 ∧ (reader s.reads).data.length < buffSize) := by
      rintro ⟨h1, h2⟩
      have h0 : s.reads = 0 := by have := hinv.1; omega
      rw [h0] at h2
      omega
    obtain ⟨out, hb, he, hr, hl⟩ :=
      SessionInv_finish R hR path uploadId reader held s hinv hbig (by rw [hs]; exact hlast)
    refine ⟨out, ?_, he, by omega, by rw [← hs]; exact hl⟩
    unfold WriteStream.loop
    rw [hb]
  | succ m ih =>
    intro s hinv hn
    have hbig : ¬ (s.index = 1 ∧ (reader s.reads).data.length < buffSize) := by
      rintro ⟨h1, h2⟩
      have h0 : s.reads = 0 := by have := hinv.1; omega
      rw [h0] at h2
      omega
    obtain ⟨s1, hb, hinv1, hr1⟩ :=
      SessionInv_step R hR path uploadId reader held s hinv hbig (hbefore _ (by omega))
    obtain ⟨out, hl, rest⟩ := ih s1 hinv1 (by omega)
    refine ⟨out, ?_, rest⟩
    unfold WriteStream.loop
    rw [hb]
    exact hl

theorem bytesRead_of_later_empty (reader : Reader) :
    ∀ n, (∀ k, 0 < k → k ≤ n → (reader k).data = []) →
      bytesRead reader (n + 1) = (reader 0).data := by
  intro n
  induction n with
  | zero => intro _; simp [bytesRead]
  | succ n ih =>
    intro h
    have h1 := ih (fun k hk hkn => h k hk (by omega))
    have h2 := h (n + 1) (by omega) (by omega)
    rw [bytesRead, h1, h2]
    simp

/-- Round trip outside the short-read case: on a remote without transport errors, for a
source whose read number `n` is the first to report end-of-input and whose first read
either fills the buffer or delivers the whole payload (no later read delivers a byte),
`WriteStream` returns without error and `GetContent` then returns exactly the bytes of the
source, in the single-put branch and in the multi-part branch alike. -/
theorem WriteStream_round_trip (R : Remote) (hR : ∀ n, R.fault n = false) (b : Bucket)
    (path : Str) (offset : Int) (reader : Reader) (n : Nat)
    (hlast : (reader n).err = some .EOF) (hbefore : ∀ k, k < n → (reader k).err ≠ some .EOF)
    (hfirst : buffSize ≤ (reader 0).data.length ∨
      ∀ k, 0 < k → k ≤ n → (reader k).data = []) :
    ∃ out, driver.WriteStream (n + 1) R b path offset reader = some out ∧ out.err = none ∧
      (driver.GetContent R out.bucket path).1 = .ok (bytesRead reader (n + 1)) := by
  have hinit : InitiateMultipartUpload R b path =
      (.ok b.nextUploadId,
        { b.record (.InitiateMultipartUpload path) with
          uploads := b.uploads ++ [⟨b.nextUploadId, path, []⟩],
          nextUploadId := b.nextUploadId + 1 }) := by
    simp [InitiateMultipartUpload, Bucket.faulty, hR]
  obtain ⟨u, hu⟩ := findUpload_after_initiate path b.uploads b.nextUploadId
  by_cases hfull : buffSize ≤ (reader 0).data.length
  · have hinv : SessionInv path b.nextUploadId reader u.Parts
        (WriteStream.start { b.record (.InitiateMultipartUpload path) with
          uploads := b.uploads ++ [⟨b.nextUploadId, path, []⟩],
          nextUploadId := b.nextUploadId + 1 }) :=
      ⟨rfl, u, [], hu, by simp, rfl, rfl, rfl⟩
    obtain ⟨out, hl, he, _, hk⟩ := WriteStream_loop_round_trip R hR path b.nextUploadId reader
      u.Parts n hlast hbefore hfull n _ hinv (by simp [WriteStream.start])
    refine ⟨out, ?_, he, GetContent_of_lookupKey R hR _ _ _ hk⟩
    unfold driver.WriteStream
    rw [hinit]
    exact hl
  · have hempty : ∀ k, 0 < k → k ≤ n → (reader k).data = [] := by
      rcases hfirst with h | h
      · exact absurd h hfull
      · exact h
    have hshort : (reader 0).data.length < buffSize := by omega
    refine ⟨⟨int64 (0 + ((reader 0).data.length : Int)), none, 1,
      (PutObject R (AbortMultipartUpload R
        { b.record (.InitiateMultipartUpload path) with
          uploads := b.uploads ++ [⟨b.nextUploadId, path, []⟩],
          nextUploadId := b.nextUploadId + 1 } path b.nextUploadId).2 path (reader 0).data).2⟩,
      ?_, rfl, ?_⟩
    · unfold driver.WriteStream
      rw [hinit]
      simp [WriteStream.loop, WriteStream.body, WriteStream.start, hshort, PutObject,
        Bucket.faulty, hR]
    · apply GetContent_of_lookupKey R hR
      rw [bytesRead_of_later_empty reader n hempty]
      simp [PutObject, Bucket.faulty, hR, lookupKey_storeKey_self]

theorem buffSize_pos : 0 < buffSize := by decide

theorem bytesRead_bytesReader (payload : Bytes) :
    ∀ k, bytesRead (bytesReader payload) k = payload.take (k * buffSize) := by
  intro k
  induction k with
  | zero => simp [bytesRead]
  | succ k ih =>
    rw [bytesRead, ih, Nat.succ_mul, List.take_add]
    congr 1
    unfold bytesReader
    split
    · rename_i h
      rw [h]
      simp
    · rfl

/-- Round trip for a payload of any length, handed over the way `bytes.Reader` does (every
read fills the buffer as far as bytes remain, and the read after the last byte reports
end-of-input): on a remote without transport errors `WriteStream` returns without error
and `GetContent` returns the payload.  This covers payloads of exactly 5 MiB and of one
byte less or more. -/
theorem WriteStream_round_trip_bytesReader (R : Remote) (hR : ∀ n, R.fault n = false)
    (b : Bucket) (path : Str) (offset : Int) (payload : Bytes) :
    ∃ fuel out, driver.WriteStream fuel R b path offset (bytesReader payload) = some out ∧
      out.err = none ∧ (driver.GetContent R out.bucket path).1 = .ok payload := by
  have hB := buffSize_pos
  have hex : ∃ k, (bytesReader payload k).err = some .EOF := by
    refine ⟨payload.length, ?_⟩
    have hd : List.drop (payload.length * buffSize) payload = [] := by
      apply List.drop_eq_nil_of_le
      exact Nat.le_mul_of_pos_right _ hB
    simp [bytesReader, hd]
  classical
  let n := Nat.find hex
  have hlast : (bytesReader payload n).err = some .EOF := Nat.find_spec hex
  have hbefore : ∀ k, k < n → (bytesReader payload k).err ≠ some .EOF :=
    fun k hk => Nat.find_min hex hk
  have hdrop : List.drop (n * buffSize) payload = [] := by
    by_contra hne
    simp [bytesReader, hne] at hlast
  have hfirst : buffSize ≤ (bytesReader payload 0).data.length ∨
      ∀ k, 0 < k → k ≤ n → (bytesReader payload k).data = [] := by
    by_cases hlen : buffSize ≤ payload.length
    · left
      have hne : payload ≠ [] := by
        intro h
        rw [h] at hlen
        simp at hlen
        omega
      simp [bytesReader, hne, hlen]
    · right
      intro k hk _
      have hd : List.drop (k * buffSize) payload = [] := by
        apply List.drop_eq_nil_of_le
        have : buffSize ≤ k * buffSize := Nat.le_mul_of_pos_left _ hk
        omega
      simp [bytesReader, hd]
  obtain ⟨out, hrun, he, hget⟩ :=
    WriteStream_round_trip R hR b path offset (bytesReader payload) n hlast hbefore hfirst
  refine ⟨n + 1, out, hrun, he, ?_⟩
  rw [hget, bytesRead_bytesReader]
  congr 1
  apply List.take_of_length_le
  have h1 : payload.length ≤ n * buffSize := by
    by_contra hlt
    have : List.drop (n * buffSize) payload ≠ [] := by
      intro h
      have := congrArg List.length h
      simp at this
      omega
    exact this hdrop
  rw [Nat.succ_mul]
  omega

end Bos
